import Mathlib

/-!
# Tenant-scoped update of the SQL persister

A shallow embedding of `persistence/sql/persister.go`: the `Persister` handle with
`NetworkID` / `WithNetworkID`, and `Persister.update`, which builds one
`UPDATE ... SET ... WHERE <id> AND <alias>.nid = :nid` statement and hands its text
to the store.

`update` is written against three libraries.  Their parts that `update` calls are
embedded here as executable definitions:

* `gobuffalo/pop/v5/columns` (`TagsFor`, `Columns`, `Add`, `ForStructWithAlias`,
  `Writeable`, `QuotedUpdateString`) and `pop.Model` (`TableName`, `Alias`,
  `IDField`, `WhereNamedID`);
* the store behind `c.Store.NamedExec`.  A statement whose names are all plain
  identifiers is run with the usual meaning of a SQL `UPDATE`; what the backend does
  with any other text (a name holding a quote, a comment mark, a blank) is a
  parameter of the backend, as is the way it counts affected rows;
* `ory/x/sqlcon.HandleError`.

Go strings are byte strings; the embedding uses `String`, and byte offsets are
character offsets, which is exact for ASCII names.
-/

set_option autoImplicit false
set_option maxRecDepth 100000

namespace Kratos

/-! ## Values and entities -/

/-- A `uuid.UUID`: sixteen bytes, read as one number. -/
abbrev UUID := Nat

/-- A value held by a struct field or a table cell. -/
inductive Value where
  | null
  | uuid (u : UUID)
  | text (s : String)
  | bool (b : Bool)
  | int (i : Int)
  deriving DecidableEq, Repr

/-- One field of the entity struct as reflection shows it: its Go name, the values
of its `db`, `rw` and `select` tags (the empty string when the tag is absent or
empty), whether it carries another tag that pop reads (`has_many`, `belongs_to`,
...), and the value it holds. -/
structure Field where
  Name : String
  db : String
  rw : String
  select : String
  otherTags : Bool
  value : Value
  deriving DecidableEq, Repr

/-- The `db` tag as `columns.TagsFor` gives it: the tag when it is written, the Go
field name when the field has no tag that pop reads, and empty otherwise. -/
def Field.dbTag (f : Field) : String :=
  if f.db != "" then f.db
  else if f.rw == "" && f.select == "" && !f.otherTags then f.Name
  else ""

/-- The name under which the store's mapper finds the field when it binds a named
parameter: the `db` tag, the Go field name when there is no `db` tag, and no name
for `db:"-"`. -/
def Field.bindName (f : Field) : Option String :=
  if f.db == "-" then none else if f.db != "" then some f.db else some f.Name

/-- The argument `v interface{}` of `update`: a struct value.  `TableName` and
`IDField` are what `pop.Model` resolves for the struct type (the table name, and the
`db` tag of the field `ID`, `"id"` by default). -/
structure Entity where
  TableName : String
  IDField : String
  fields : List Field
  deriving DecidableEq, Repr

/-- The value a named parameter `:name` is bound to: the first field the mapper
finds under `name`; `none` when the struct has no such field. -/
def Entity.bind (v : Entity) (name : String) : Option Value :=
  (v.fields.find? (fun f => f.bindName == some name)).map Field.value

/-! ## Go string helpers (on character lists) -/

/-- The function `unicode.IsSpace`: the characters `strings.TrimSpace` removes. -/
def isSpace (c : Char) : Bool :=
  let n := c.toNat
  (9 ≤ n && n ≤ 13) || n == 32 || n == 0x85 || n == 0xA0 || n == 0x1680 ||
    (0x2000 ≤ n && n ≤ 0x200A) || n == 0x2028 || n == 0x2029 || n == 0x202F ||
    n == 0x205F || n == 0x3000

/-- Go `strings.TrimSpace`. -/
def trimSpace (s : List Char) : List Char :=
  ((s.dropWhile isSpace).reverse.dropWhile isSpace).reverse

/-- Go `strings.Contains`. -/
def containsSub (sub : List Char) : List Char → Bool
  | [] => sub.isEmpty
  | c :: cs => sub.isPrefixOf (c :: cs) || containsSub sub cs

/-- Go `strings.LastIndex`: the start of the last occurrence, `-1` when there is
none. -/
def lastIndex (sub : List Char) : List Char → Int
  | [] => if sub.isEmpty then 0 else -1
  | c :: cs =>
    if lastIndex sub cs ≥ 0 then lastIndex sub cs + 1
    else if sub.isPrefixOf (c :: cs) then 0 else -1

/-- Go `strings.ToUpper` (ASCII range). -/
def toUpper (s : List Char) : List Char := s.map Char.toUpper

/-- The Go slice `s[k:]`: `none` when `k` is past the end (a run-time panic). -/
def sliceFrom (s : List Char) (k : Int) : Option (List Char) :=
  if 0 ≤ k ∧ k ≤ s.length then some (s.drop k.toNat) else none

/-- Byte-wise lexicographic order, the order of `sort.Strings`. -/
def strLe : List Char → List Char → Bool
  | [], _ => true
  | _ :: _, [] => false
  | a :: as, b :: bs => a.toNat < b.toNat || (a.toNat == b.toNat && strLe as bs)

/-- Go `sort.Strings`. -/
def sortStrings (xs : List String) : List String :=
  List.insertionSort (fun a b => strLe a.data b.data = true) xs

/-! ## `gobuffalo/pop/v5/columns` -/

/-- A `columns.Column`. -/
structure Column where
  Name : String
  Writeable : Bool
  Readable : Bool
  SelectSQL : String
  deriving DecidableEq, Repr

/-- A `columns.Columns`.  `Cols` is the Go map from column name to column, kept as a
list in insertion order; `Add` never inserts a name twice. -/
structure Columns where
  Cols : List Column
  TableName : String
  TableAlias : String
  IDField : String
  deriving DecidableEq, Repr

/-- The function `columns.NewColumnsWithAlias`. -/
def NewColumnsWithAlias (tableName tableAlias idField : String) : Columns :=
  { Cols := [], TableName := tableName, TableAlias := tableAlias, IDField := idField }

/-- What `Add` reads off one name: the column name `xs[0]`, the access letter
`xs[1]` when the name ends in `,r` or `,w`, and the select text `ss` (empty unless
the name holds a blank). -/
structure ParsedName where
  name : String
  access : Option String
  ss : String
  deriving DecidableEq, Repr

/-- The head of the loop body of `Columns.Add`: split off a `,r` / `,w` suffix, trim,
and for a name with a blank (`x AS y`, `distinct x`) keep what follows the last
` AS ` or the last blank.  The last blank is looked up in the name as it was passed,
so the slice can start past the end of the trimmed name: then `Add` panics, which is
`none` here. -/
def parseName (name : String) : Option ParsedName :=
  let n := name.data
  let suffixed := [',', 'r'].isSuffixOf n || [',', 'w'].isSuffixOf n
  let x0 := trimSpace (if suffixed then n.take (n.length - 2) else n)
  let access : Option String := if suffixed then some (String.mk (n.drop (n.length - 1))) else none
  if containsSub " AS ".data (toUpper x0) then
    (sliceFrom x0 (lastIndex " AS ".data (toUpper x0) + 4)).map
      (fun s => { name := String.mk s, access := access, ss := String.mk x0 })
  else if containsSub [' '] x0 then
    (sliceFrom x0 (lastIndex [' '] n + 1)).map
      (fun s => { name := String.mk s, access := access, ss := String.mk x0 })
  else
    some { name := String.mk x0, access := access, ss := "" }

/-- The column `Add` creates for a parsed name that is not in the map yet. -/
def newColumn (c : Columns) (p : ParsedName) : Column :=
  let tableAlias := if c.TableAlias == "" then c.TableName else c.TableAlias
  let ss :=
    if p.ss == "" then (if tableAlias != "" then tableAlias ++ "." ++ p.name else p.name)
    else p.ss
  match p.access with
  | some a =>
    { Name := p.name, SelectSQL := ss, Readable := !(a == "w"), Writeable := !(a == "r") }
  | none =>
    { Name := p.name, SelectSQL := ss, Readable := true, Writeable := !(p.name == c.IDField) }

/-- One turn of the loop of `Columns.Add`: a name already in the map is left as it
is, a new one is inserted; `none` when the turn panics. -/
def Columns.add1 (c : Columns) (name : String) : Option Columns :=
  match parseName name with
  | none => none
  | some p =>
    if c.Cols.any (fun col => col.Name == p.name) then some c
    else some { c with Cols := c.Cols ++ [newColumn c p] }

/-- The method `Columns.Add(names...)`; `none` when it panics. -/
def Columns.Add (c : Columns) : List String → Option Columns
  | [] => some c
  | n :: ns =>
    match c.add1 n with
    | none => none
    | some c1 => c1.Add ns

/-- The method `Column.SetSelectSQL`, applied to the column called `name`. -/
def Columns.setSelectSQL (c : Columns) (name : String) (s : String) : Columns :=
  { c with Cols := c.Cols.map (fun col =>
      if col.Name == name then { col with SelectSQL := s, Writeable := false, Readable := true }
      else col) }

/-- The loop body of `ForStructWithAlias` for one struct field, with the tags as
`TagsFor` gives them; `none` when `Add` panics. -/
def forStructField (c : Columns) (f : Field) : Option Columns :=
  if f.dbTag != "-" && f.dbTag != "" then
    let col := if f.rw != "" then f.dbTag ++ "," ++ f.rw else f.dbTag
    match parseName col, c.add1 col with
    | some p, some c1 => if f.select != "" then some (c1.setSelectSQL p.name f.select) else some c1
    | _, _ => none
  else some c

/-- The loop of `ForStructWithAlias` over the struct fields. -/
def forStructFields (c : Columns) : List Field → Option Columns
  | [] => some c
  | f :: fs =>
    match forStructField c f with
    | none => none
    | some c1 => forStructFields c1 fs

/-- The function `columns.ForStructWithAlias`.  A panic in the loop is recovered:
the result is then a fresh column list with the single name `*`. -/
def ForStructWithAlias (v : Entity) (tableName tableAlias idField : String) : Columns :=
  match forStructFields (NewColumnsWithAlias tableName tableAlias idField) v.fields with
  | some c => c
  | none =>
    ((NewColumnsWithAlias tableName tableAlias idField).add1 "*").getD
      (NewColumnsWithAlias tableName tableAlias idField)

/-- The method `Columns.Writeable`: the writeable columns. -/
def Columns.Writeable (c : Columns) : Columns :=
  { NewColumnsWithAlias c.TableName c.TableAlias c.IDField with
    Cols := c.Cols.filter (fun col => col.Writeable) }

/-- The method `Column.QuotedUpdateString`. -/
def Column.QuotedUpdateString (col : Column) (quote : String → String) : String :=
  quote col.Name ++ " = :" ++ col.Name

/-- The method `Columns.QuotedUpdateString`: one assignment per column, sorted and
joined. -/
def Columns.QuotedUpdateString (c : Columns) (quote : String → String) : String :=
  ", ".intercalate (sortStrings (c.Cols.map (fun col => col.QuotedUpdateString quote)))

/-! ## `pop.Model` -/

/-- A `pop.Model`: the entity and the alias `As`. -/
structure Model where
  Value : Entity
  As : String
  deriving DecidableEq, Repr

/-- The function `pop.NewModel(v, ctx)`: no alias is set. -/
def NewModel (v : Entity) : Model := { Value := v, As := "" }

/-- The method `Model.TableName`. -/
def Model.TableName (m : Model) : String := m.Value.TableName

/-- The method `Model.IDField`. -/
def Model.IDField (m : Model) : String := m.Value.IDField

/-- The method `Model.Alias`: `As`, or the table name with `.` turned into `_`. -/
def Model.Alias (m : Model) : String :=
  if m.As == "" then String.mk (m.TableName.data.map (fun ch => if ch == '.' then '_' else ch))
  else m.As

/-- The method `Model.WhereNamedID`: the identifier predicate. -/
def Model.WhereNamedID (m : Model) : String :=
  m.Alias ++ "." ++ m.IDField ++ " = :" ++ m.IDField

/-! ## The persister handle -/

/-- The dialect of a connection; `Quote` is present when the dialect implements
`quotable`. -/
structure Dialect where
  Name : String
  Quote : Option (String → String)

/-- A `pop.Connection`, as far as `update` looks at it. -/
structure Connection where
  ID : Nat
  Dialect : Dialect

/-- The struct `Persister`.  The migration box and the dependencies are references,
kept as numbers. -/
structure Persister where
  nid : UUID
  c : Connection
  mb : Nat
  r : Nat
  isSQLite : Bool

/-- The method `NetworkID`. -/
def Persister.NetworkID (p : Persister) : UUID := p.nid

/-- The memory holding persisters: a `*Persister` is an index into it. -/
abbrev Heap := List Persister

/-- The method `WithNetworkID`, called through a pointer `a`.  The receiver is passed
by value: the body works on a copy of `h[a]`, sets `nid` on the copy and returns the
address of the copy.  `none` when `a` points nowhere. -/
def WithNetworkID (h : Heap) (a : Nat) (sid : UUID) : Option (Heap × Nat) :=
  match h.get? a with
  | none => none
  | some p =>
    let cp : Persister := { p with nid := sid }
    some (h ++ [cp], h.length)

/-- Modelled from the spec: `GetConnection` is declared outside the files at hand;
the connection provider "supplies a live backend handle bound to an execution
context", which is the connection the persister holds. -/
def Persister.GetConnection (p : Persister) : Connection := p.c

/-! ## The store -/

/-- An error raised by the store or its driver. -/
inductive DriverErr where
  | sqlNoRows
  | missingName (name : String)
  | syntaxError
  | failure (code : Nat)
  deriving DecidableEq, Repr

/-- The errors `update` returns. -/
inductive Err where
  | notQuoter
  | ErrNoRows
  | wrapped (e : DriverErr)
  deriving DecidableEq, Repr

/-- The function `sqlcon.HandleError` on a non-nil error: `sql.ErrNoRows` becomes
`sqlcon.ErrNoRows`, any other error is passed on (translated or wrapped, never
dropped). -/
def HandleError : DriverErr → Err
  | .sqlNoRows => .ErrNoRows
  | e => .wrapped e

/-- A table row: column names with their values. -/
abbrev Row := List (String × Value)

/-- The value of column `c` in a row. -/
def Row.get (r : Row) (c : String) : Option Value := List.lookup c r

/-- A table of the database. -/
structure Table where
  name : String
  rows : List Row
  deriving DecidableEq, Repr

/-- The store behind `c.Store`.  `tables` is the persisted state and `calls` records
the texts handed to `NamedExec`.  The rest says how the backend answers:
`execErr` and `rowsErr` are an error for the statement (outage, rejected statement)
and an error for the affected-row count, if any; `countsChanged` tells whether the
affected-row count is the number of rows changed (MySQL without `clientFoundRows`)
rather than the number of rows matched; `raw` is what the backend does with a text
that is not a plain `UPDATE` over plain identifiers. -/
structure Backend where
  tables : List Table
  execErr : Option DriverErr
  rowsErr : Option DriverErr
  calls : List String
  countsChanged : Bool
  raw : String → Entity → List Table → Except DriverErr Nat × List Table

/-- The statement `update` builds: its text, and the parts the text is made of.
`setCols` lists the assigned columns (each as `<quoted c> = :c`); the predicate is
`<tableAlias>.<whereID> = :<whereID> AND <tableAlias>.nid = :nid`. -/
structure UpdateStmt where
  text : String
  table : String
  tableAlias : String
  setCols : List String
  whereID : String
  deriving DecidableEq, Repr

/-- A character of a plain identifier: a letter, a digit or an underscore. -/
def isNameChar (c : Char) : Bool :=
  c.toNat == 95 || (48 ≤ c.toNat && c.toNat ≤ 57) || (65 ≤ c.toNat && c.toNat ≤ 90) ||
    (97 ≤ c.toNat && c.toNat ≤ 122)

/-- A plain identifier: not empty, letters, digits and underscores only. -/
def isPlainName (name : String) : Bool :=
  !name.data.isEmpty && name.data.all isNameChar

/-- A statement whose text reads as its parts: the table name is made of plain
identifiers and dots, the alias, the identifier column and the assigned columns are
plain identifiers.  Any other text (a name with a quote, a comment mark or a blank)
is outside the grammar the parts stand for. -/
def UpdateStmt.Safe (st : UpdateStmt) : Bool :=
  !st.table.data.isEmpty && st.table.data.all (fun ch => isNameChar ch || ch == '.') &&
    isPlainName st.tableAlias && isPlainName st.whereID && st.setCols.all isPlainName

/-- SQL equality of a cell with a bound value: never true for `NULL`. -/
def sqlEq (cell : Option Value) (x : Value) : Bool :=
  cell == some x && x != Value.null

/-- The predicate of the statement on one row: identifier and tenant id both equal
the bound `:id` and `:nid`. -/
def rowMatches (whereID : String) (idv nidv : Value) (r : Row) : Bool :=
  sqlEq (r.get whereID) idv && sqlEq (r.get "nid") nidv

/-- The SET clause on one row: each assigned column takes its bound value. -/
def assignRow (bound : List (String × Value)) (r : Row) : Row :=
  r.map (fun e => match List.lookup e.1 bound with
    | some x => (e.1, x)
    | none => e)

/-- Binds every name of a list from the entity; the first missing name is the
error. -/
def bindAll (v : Entity) : List String → Except DriverErr (List (String × Value))
  | [] => .ok []
  | n :: ns =>
    match v.bind n with
    | none => .error (.missingName n)
    | some x =>
      match bindAll v ns with
      | .error e => .error e
      | .ok rest => .ok ((n, x) :: rest)

/-- The rows of a table after the statement. -/
def updateRows (whereID : String) (idv nidv : Value) (bound : List (String × Value))
    (rows : List Row) : List Row :=
  rows.map (fun r => if rowMatches whereID idv nidv r then assignRow bound r else r)

/-- The tables after the statement: only the named table is touched. -/
def updateTables (st : UpdateStmt) (idv nidv : Value) (bound : List (String × Value))
    (ts : List Table) : List Table :=
  ts.map (fun t =>
    if t.name == st.table then { t with rows := updateRows st.whereID idv nidv bound t.rows }
    else t)

/-- The number of rows the predicate selects in the named table; with `changedOnly`,
the number of those that the SET clause changes. -/
def countMatches (st : UpdateStmt) (idv nidv : Value) (bound : List (String × Value))
    (changedOnly : Bool) (ts : List Table) : Nat :=
  ((ts.filter (fun t => t.name == st.table)).map
    (fun t => (t.rows.filter (fun r => rowMatches st.whereID idv nidv r &&
      (!changedOnly || assignRow bound r != r))).length)).sum

/-- The call `c.Store.NamedExec(stmt, v)` for a statement that reads as its parts:
the named parameters are bound from `v` (a missing name is an error and nothing is
sent), then the backend either answers with its error, leaving the tables as they
are, or rejects an empty SET clause, or runs the statement and reports its
affected-row count. -/
def execParts (be : Backend) (st : UpdateStmt) (v : Entity) :
    Except DriverErr Nat × List Table :=
  match bindAll v st.setCols, v.bind st.whereID, v.bind "nid" with
  | .error e, _, _ => (.error e, be.tables)
  | .ok _, none, _ => (.error (.missingName st.whereID), be.tables)
  | .ok _, some _, none => (.error (.missingName "nid"), be.tables)
  | .ok bound, some idv, some nidv =>
    match be.execErr with
    | some e => (.error e, be.tables)
    | none =>
      if st.setCols.isEmpty then (.error .syntaxError, be.tables)
      else
        (.ok (countMatches st idv nidv bound be.countsChanged be.tables),
          updateTables st idv nidv bound be.tables)

/-- The call `c.Store.NamedExec(stmt, v)`.  The store receives the text alone: when
the text reads as the parts it was made of, it is run as such; any other text is
answered by the backend's `raw`. -/
def NamedExec (be : Backend) (st : UpdateStmt) (v : Entity) : Except DriverErr Nat × Backend :=
  let res := if st.Safe then execParts be st v else be.raw st.text v be.tables
  (res.1, { be with calls := be.calls ++ [st.text], tables := res.2 })

/-- The call `result.RowsAffected()`. -/
def RowsAffected (be : Backend) (count : Nat) : Except DriverErr Nat :=
  match be.rowsErr with
  | some e => .error e
  | none => .ok count

/-! ## `Persister.update` -/

/-- How a call of `update` ends: it returns an error (`none` for nil) with the store
as the call left it, or it panics. -/
inductive Outcome where
  | panicked
  | returned (err : Option Err) (be : Backend)

/-- The columns `update` selects: the named ones when `columnNames` is not empty,
all columns of the struct otherwise; `none` when `Add` panics. -/
def updateColumns (v : Entity) (columnNames : List String) : Option Columns :=
  let model := NewModel v
  let tn := model.TableName
  if columnNames.length > 0 && tn == model.TableName then
    (NewColumnsWithAlias tn model.As model.IDField).Add columnNames
  else
    some (ForStructWithAlias v tn model.As model.IDField)

/-- The statement `update` formats with `fmt.Sprintf` from the selected columns. -/
def stmtOf (quote : String → String) (v : Entity) (cols : Columns) : UpdateStmt :=
  let model := NewModel v
  { text := "UPDATE " ++ quote model.TableName ++ " AS " ++ model.Alias ++ " SET "
      ++ cols.Writeable.QuotedUpdateString quote ++ " WHERE " ++ model.WhereNamedID
      ++ " AND " ++ model.Alias ++ ".nid = :nid"
    table := model.TableName
    tableAlias := model.Alias
    setCols := cols.Writeable.Cols.map Column.Name
    whereID := model.IDField }

/-- The statement of a call of `update`; `none` when `Add` panics. -/
def updateStmt (quote : String → String) (v : Entity) (columnNames : List String) :
    Option UpdateStmt :=
  (updateColumns v columnNames).map (stmtOf quote v)

/-- The method `Persister.update`. -/
def update (p : Persister) (be : Backend) (v : Entity) (columnNames : List String) : Outcome :=
  let c := p.GetConnection
  match c.Dialect.Quote with
  | none => .returned (some .notQuoter) be
  | some quote =>
    match updateStmt quote v columnNames with
    | none => .panicked
    | some stmt =>
      match NamedExec be stmt v with
      | (.error err, be1) => .returned (some (HandleError err)) be1
      | (.ok result, be1) =>
        match RowsAffected be1 result with
        | .error err => .returned (some (HandleError err)) be1
        | .ok count =>
          if count == 0 then .returned (some .ErrNoRows) be1 else .returned none be1

/-! ## Notions used in the statements -/

/-- A name `Add` takes as it is written: no `,r` / `,w` suffix, nothing to trim, no
blank. -/
def IsVerbatim (name : String) : Prop :=
  parseName name = some { name := name, access := none, ss := "" }

instance (name : String) : Decidable (IsVerbatim name) := by
  unfold IsVerbatim; infer_instance

/-- A struct field that stands for a column: its `db` tag, as `TagsFor` gives it, is
neither empty nor `-`. -/
def Field.isColumn (f : Field) : Bool := f.dbTag != "-" && f.dbTag != ""

/-- The name `ForStructWithAlias` hands to `Add` for a field. -/
def Field.columnName (f : Field) : String :=
  if f.rw != "" then f.dbTag ++ "," ++ f.rw else f.dbTag

/-- A field whose tags `Add` reads as they are written: the column is the `db` tag,
the access letter is the `rw` tag. -/
def Field.ReadAsWritten (f : Field) : Prop :=
  parseName f.columnName =
    some { name := f.dbTag, access := if f.rw != "" then some f.rw else none, ss := "" }

instance (f : Field) : Decidable f.ReadAsWritten := by
  unfold Field.ReadAsWritten; infer_instance

/-- A field with plain tags: the column name is a plain identifier and the `rw` tag
is absent, `r` or `w`. -/
def Field.plainTags (f : Field) : Bool :=
  isPlainName f.dbTag && (f.rw == "" || f.rw == "r" || f.rw == "w")

/-- A column field that is written by an update: it has no `select` tag, and it is
tagged `rw:"w"`, or it has no `rw` tag and is not the identifier column. -/
def Field.isAssigned (idField : String) (f : Field) : Bool :=
  f.select == "" && (if f.rw != "" then !(f.rw == "r") else !(f.dbTag == idField))

/-- The tables without the rows of table `tn` whose identifier cell is `idv`. -/
def withoutID (tn idField : String) (idv : Option Value) (ts : List Table) : List Table :=
  ts.map (fun t =>
    if t.name == tn then { t with rows := t.rows.filter (fun r => !(Row.get r idField == idv)) }
    else t)

/-- The store without the rows that carry the identifier of `v`. -/
def withoutEntity (v : Entity) (be : Backend) : Backend :=
  { be with tables := withoutID v.TableName v.IDField (v.bind v.IDField) be.tables }

/-- The cells of one column, table by table. -/
def columnCells (c : String) (ts : List Table) : List (String × List (Option Value)) :=
  ts.map (fun t => (t.name, t.rows.map (fun r => Row.get r c)))

/-- The SET clause for a list of columns: `<quoted c> = :c` for each, sorted and
joined with commas. -/
def setClause (quote : String → String) (cols : List String) : String :=
  ", ".intercalate (sortStrings (cols.map (fun c => quote c ++ " = :" ++ c)))

/-- The result `update` makes of the store's answer and of the affected-row
count. -/
def resultOf (be : Backend) (res : Except DriverErr Nat) : Option Err :=
  match res with
  | .error e => some (HandleError e)
  | .ok n =>
    match be.rowsErr with
    | some e => some (HandleError e)
    | none => if n == 0 then some Err.ErrNoRows else none

/-- The columns the SET clause of `update` assigns; none when `Add` panics. -/
def assignedColumns (v : Entity) (columnNames : List String) : List String :=
  match updateColumns v columnNames with
  | some cols => cols.Writeable.Cols.map Column.Name
  | none => []

/-- The call builds a statement, and every name pasted into its text (table, alias,
identifier column, assigned columns) is a plain identifier. -/
def plainStatement (v : Entity) (columnNames : List String) : Bool :=
  match updateColumns v columnNames with
  | some cols => (stmtOf (fun s => s) v cols).Safe
  | none => false

/-- The names the entity's type brings into the statement are plain: the table name
is made of plain identifiers and dots, the identifier column is a plain
identifier. -/
def Entity.plainNames (v : Entity) : Bool :=
  !v.TableName.data.isEmpty && v.TableName.data.all (fun ch => isNameChar ch || ch == '.') &&
    isPlainName (NewModel v).Alias && isPlainName v.IDField

/-- The error of an outcome: `none` for a panic, `some none` for nil. -/
def Outcome.err : Outcome → Option (Option Err)
  | .panicked => none
  | .returned e _ => some e

/-- The tables after a call; a panic leaves them as they were. -/
def Outcome.tablesOr (o : Outcome) (ts : List Table) : List Table :=
  match o with
  | .panicked => ts
  | .returned _ be => be.tables

/-- The texts handed to the store by the end of a call. -/
def Outcome.callsOr (o : Outcome) (cs : List String) : List String :=
  match o with
  | .panicked => cs
  | .returned _ be => be.calls

/-! ## Sample data -/

/-- The `Quote` of the Postgres and SQLite dialects on a name without dots: double
quotes around it. -/
def sampleQuote (key : String) : String := "\"" ++ key ++ "\""

/-- A persister on a quoting dialect, scoped to tenant `nid`. -/
def sampleHandle (nid : UUID) : Persister :=
  { nid := nid, c := { ID := 1, Dialect := { Name := "postgres", Quote := some sampleQuote } },
    mb := 2, r := 3, isSQLite := false }

/-- A login flow as `update` receives it: `ID`, `NID`, `RequestURL` and `Active` with
their `db` tags. -/
def sampleFlow (id nid : UUID) (url : String) : Entity :=
  { TableName := "selfservice_login_flows", IDField := "id",
    fields := [⟨"ID", "id", "", "", false, .uuid id⟩, ⟨"NID", "nid", "", "", false, .uuid nid⟩,
      ⟨"RequestURL", "request_url", "", "", false, .text url⟩,
      ⟨"Active", "active", "", "", false, .bool true⟩] }

/-- The columns `update` selects for the single column name `request_url`. -/
def sampleColumns : Columns :=
  { Cols := [{ Name := "request_url", Writeable := true, Readable := true,
               SelectSQL := "selfservice_login_flows.request_url" }],
    TableName := "selfservice_login_flows", TableAlias := "", IDField := "id" }

/-- The row of a login flow. -/
def sampleRow (id nid : UUID) (url : String) : Row :=
  [("id", .uuid id), ("nid", .uuid nid), ("request_url", .text url), ("active", .bool true)]

/-- The tables of a store holding the given login flows and one message. -/
def sampleTables (rows : List Row) : List Table :=
  [⟨"selfservice_login_flows", rows⟩,
    ⟨"courier_messages", [[("id", .uuid 1), ("nid", .uuid 7), ("subject", .text "hi")]]⟩]

/-- A store that answers without error, counts matched rows and rejects every text
that is not a plain `UPDATE`. -/
def sampleStore (rows : List Row) : Backend :=
  { tables := sampleTables rows, execErr := none, rowsErr := none, calls := [],
    countsChanged := false, raw := fun _ _ ts => (.error (.failure 2), ts) }

/-- The same store on MySQL without `clientFoundRows`: the affected-row count is the
number of rows changed. -/
def mysqlStore (rows : List Row) : Backend :=
  { sampleStore rows with countsChanged := true }

/-- The text `update` builds for the login flow and the single column name
`id"=:nid--`. -/
def injectedText : String :=
  "UPDATE \"selfservice_login_flows\" AS selfservice_login_flows SET \"id\"=:nid--\" = :id\"=:nid-- WHERE selfservice_login_flows.id = :id AND selfservice_login_flows.nid = :nid"

/-- What SQLite does with `injectedText`: `--` opens a comment that runs to the end
of the one-line text, so the statement that is left is
`UPDATE "selfservice_login_flows" AS selfservice_login_flows SET "id"=:nid`, which
sets the identifier of every row of the table to the bound `:nid`. -/
def sqliteRaw (text : String) (v : Entity) (ts : List Table) :
    Except DriverErr Nat × List Table :=
  if text == injectedText then
    match v.bind "nid" with
    | none => (.error (.missingName "nid"), ts)
    | some x =>
      (.ok ((ts.filter (fun t => t.name == "selfservice_login_flows")).map
          (fun t => t.rows.length)).sum,
        ts.map (fun t =>
          if t.name == "selfservice_login_flows" then
            { t with rows := t.rows.map (assignRow [("id", x)]) }
          else t))
  else (.error (.failure 2), ts)

/-- A SQLite store holding the given login flows. -/
def sqliteStore (rows : List Row) : Backend :=
  { sampleStore rows with raw := sqliteRaw }

/-! ## Lemmas on the store -/

theorem bindAll_lookup (v : Entity) :
    ∀ (ns : List String) (bound : List (String × Value)), bindAll v ns = .ok bound →
      ∀ (c : String) (x : Value), List.lookup c bound = some x → v.bind c = some x := by
  intro ns
  induction ns with
  | nil =>
    intro bound h c x hx
    simp [bindAll] at h
    subst h
    simp at hx
  | cons n ns ih =>
    intro bound h c x hx
    unfold bindAll at h
    cases hb : v.bind n with
    | none => simp [hb] at h
    | some y =>
      cases hr : bindAll v ns with
      | error e => simp [hb, hr] at h
      | ok rest =>
        simp [hb, hr] at h
        subst h
        by_cases hcn : c = n
        · subst hcn
          simp [List.lookup] at hx
          subst hx
          exact hb
        · have hne : (c == n) = false := by simpa using hcn
          simp [List.lookup, hne] at hx
          exact ih rest hr c x hx

theorem bindAll_keys (v : Entity) :
    ∀ (ns : List String) (bound : List (String × Value)), bindAll v ns = .ok bound →
      ∀ (c : String), c ∉ ns → List.lookup c bound = none := by
  intro ns
  induction ns with
  | nil =>
    intro bound h c _
    simp [bindAll] at h
    subst h
    simp
  | cons n ns ih =>
    intro bound h c hc
    unfold bindAll at h
    cases hb : v.bind n with
    | none => simp [hb] at h
    | some y =>
      cases hr : bindAll v ns with
      | error e => simp [hb, hr] at h
      | ok rest =>
        simp [hb, hr] at h
        subst h
        simp at hc
        have hne : (c == n) = false := by simpa using hc.1
        simp only [List.lookup, hne]
        exact ih rest hr c hc.2

theorem assignRow_get (bound : List (String × Value)) (c : String) :
    ∀ r : Row, Row.get (assignRow bound r) c =
      match List.lookup c bound with
      | some x => (Row.get r c).map (fun _ => x)
      | none => Row.get r c := by
  intro r
  induction r with
  | nil => cases List.lookup c bound <;> simp [assignRow, Row.get]
  | cons e r ih =>
    obtain ⟨k, y⟩ := e
    simp only [Row.get, assignRow, List.map_cons] at ih ⊢
    by_cases hck : c = k
    · subst hck
      cases hl : List.lookup c bound with
      | none => simp [List.lookup, hl]
      | some x => simp [List.lookup, hl]
    · have hne : (c == k) = false := by simpa using hck
      cases hl : List.lookup k bound with
      | none =>
        simp only [hl, List.lookup, hne]
        exact ih
      | some x =>
        simp only [hl, List.lookup, hne]
        exact ih

theorem sqlEq_true {cell : Option Value} {x : Value} (h : sqlEq cell x = true) :
    cell = some x := by
  simp [sqlEq] at h
  exact h.1

theorem assignRow_get_of_eq (bound : List (String × Value)) (c : String) (x : Value) (r : Row)
    (hr : Row.get r c = some x) (hb : ∀ y, List.lookup c bound = some y → y = x) :
    Row.get (assignRow bound r) c = Row.get r c := by
  rw [assignRow_get]
  cases hl : List.lookup c bound with
  | none => rfl
  | some y => simp [hr, hb y hl]

theorem updateRows_of_no_match (whereID : String) (idv nidv : Value)
    (bound : List (String × Value)) (rows : List Row)
    (h : ∀ r ∈ rows, rowMatches whereID idv nidv r = false) :
    updateRows whereID idv nidv bound rows = rows := by
  unfold updateRows
  conv_rhs => rw [← List.map_id rows]
  apply List.map_congr_left
  intro r hr
  simp [h r hr]

theorem updateTables_of_no_match (st : UpdateStmt) (idv nidv : Value)
    (bound : List (String × Value)) (ts : List Table)
    (h : ∀ t ∈ ts, t.name = st.table → ∀ r ∈ t.rows, rowMatches st.whereID idv nidv r = false) :
    updateTables st idv nidv bound ts = ts := by
  unfold updateTables
  conv_rhs => rw [← List.map_id ts]
  apply List.map_congr_left
  intro t ht
  by_cases hn : t.name = st.table
  · have e := updateRows_of_no_match st.whereID idv nidv bound t.rows (h t ht hn)
    have hb : (t.name == st.table) = true := by simpa using hn
    simp only [hb, if_true, e, id]
  · simp [hn]

theorem countMatches_of_no_match (st : UpdateStmt) (idv nidv : Value)
    (bound : List (String × Value)) (ch : Bool) (ts : List Table)
    (h : ∀ t ∈ ts, t.name = st.table → ∀ r ∈ t.rows, rowMatches st.whereID idv nidv r = false) :
    countMatches st idv nidv bound ch ts = 0 := by
  unfold countMatches
  apply List.sum_eq_zero
  intro n hn
  simp only [List.mem_map, List.mem_filter] at hn
  obtain ⟨t, ⟨ht, hname⟩, rfl⟩ := hn
  have hname2 : t.name = st.table := by simpa using hname
  rw [List.length_eq_zero, List.filter_eq_nil_iff]
  intro r hr
  simp [h t ht hname2 r hr]

theorem lookup_of_mem_nodup :
    ∀ (r : Row) (k : String) (y : Value), (r.map Prod.fst).Nodup → (k, y) ∈ r →
      List.lookup k r = some y := by
  intro r
  induction r with
  | nil => intro k y _ h; simp at h
  | cons e r ih =>
    intro k y hnd h
    obtain ⟨k0, y0⟩ := e
    simp only [List.map_cons, List.nodup_cons] at hnd
    rcases List.mem_cons.mp h with h | h
    · cases h
      simp [List.lookup]
    · have hne : k ≠ k0 := by
        intro hk
        apply hnd.1
        rw [← hk]
        exact List.mem_map_of_mem Prod.fst h
      have hne2 : (k == k0) = false := by simpa using hne
      simp only [List.lookup, hne2]
      exact ih k y hnd.2 h

theorem assignRow_eq_self (bound : List (String × Value)) (r : Row)
    (h : ∀ e ∈ r, ∀ x, List.lookup e.1 bound = some x → e.2 = x) :
    assignRow bound r = r := by
  unfold assignRow
  conv_rhs => rw [← List.map_id r]
  apply List.map_congr_left
  intro e he
  cases hl : List.lookup e.1 bound with
  | none => rfl
  | some x =>
    have := h e he x hl
    simp only [id]
    rw [← this]

theorem countMatches_pos (st : UpdateStmt) (idv nidv : Value) (bound : List (String × Value)) :
    ∀ (ts : List Table) (t : Table) (r : Row), t ∈ ts → t.name = st.table → r ∈ t.rows →
      rowMatches st.whereID idv nidv r = true → 1 ≤ countMatches st idv nidv bound false ts := by
  intro ts
  induction ts with
  | nil => intro t r ht; simp at ht
  | cons t0 ts ih =>
    intro t r ht hn hr hm
    rcases List.mem_cons.mp ht with h | h
    · subst h
      have hb : (t.name == st.table) = true := by simpa using hn
      have hpos : 1 ≤ (t.rows.filter (fun r => rowMatches st.whereID idv nidv r &&
          (!false || assignRow bound r != r))).length :=
        List.length_pos.mpr (List.ne_nil_of_mem (List.mem_filter.mpr ⟨hr, by simp [hm]⟩))
      simp only [countMatches, List.filter_cons, hb, if_true, List.map_cons, List.sum_cons]
      omega
    · have := ih t r h hn hr hm
      unfold countMatches at this ⊢
      by_cases hb : (t0.name == st.table) = true
      · simp only [List.filter_cons, hb, if_true, List.map_cons, List.sum_cons]
        omega
      · simp only [List.filter_cons, hb]
        exact this

theorem updateTables_other_tables (st : UpdateStmt) (idv nidv : Value)
    (bound : List (String × Value)) (ts : List Table) :
    (updateTables st idv nidv bound ts).filter (fun t => !(t.name == st.table)) =
      ts.filter (fun t => !(t.name == st.table)) := by
  induction ts with
  | nil => rfl
  | cons t ts ih =>
    unfold updateTables at ih ⊢
    by_cases hb : (t.name == st.table) = true
    · simp only [List.map_cons, hb, if_true, List.filter_cons, Bool.not_true, Bool.false_eq_true,
        if_false]
      exact ih
    · have hb2 : (t.name == st.table) = false := by simpa using hb
      simp only [List.map_cons, hb2, Bool.false_eq_true, if_false, List.filter_cons,
        Bool.not_false, if_true]
      rw [ih]

theorem bindAll_ok (v : Entity) :
    ∀ ns : List String, (∀ c ∈ ns, (v.bind c).isSome = true) →
      ∃ bound, bindAll v ns = .ok bound := by
  intro ns
  induction ns with
  | nil => intro _; exact ⟨[], rfl⟩
  | cons n ns ih =>
    intro h
    obtain ⟨rest, hrest⟩ := ih (fun c hc => h c (List.mem_cons_of_mem _ hc))
    have hn := h n (List.mem_cons_self _ _)
    cases hb : v.bind n with
    | none => rw [hb] at hn; simp at hn
    | some x => exact ⟨(n, x) :: rest, by simp [bindAll, hb, hrest]⟩

/-! ## Plain names are taken as written -/

theorem nameChar_cases {c : Char} (h : isNameChar c = true) :
    c.toNat = 95 ∨ (48 ≤ c.toNat ∧ c.toNat ≤ 57) ∨ (65 ≤ c.toNat ∧ c.toNat ≤ 90) ∨
      (97 ≤ c.toNat ∧ c.toNat ≤ 122) := by
  simp only [isNameChar, Bool.or_eq_true, Bool.and_eq_true, beq_iff_eq, decide_eq_true_eq] at h
  tauto

theorem nameChar_not_space {c : Char} (h : isNameChar c = true) : isSpace c = false := by
  have hc := nameChar_cases h
  unfold isSpace
  simp only [Bool.or_eq_false_iff, Bool.and_eq_false_iff, beq_eq_false_iff_ne,
    decide_eq_false_iff_not, ne_eq]
  omega

theorem nameChar_ne_blank {c : Char} (h : isNameChar c = true) : c ≠ ' ' := by
  have hc := nameChar_cases h
  rintro rfl; revert hc; decide

theorem nameChar_ne_comma {c : Char} (h : isNameChar c = true) : c ≠ ',' := by
  have hc := nameChar_cases h
  rintro rfl; revert hc; decide

theorem nameChar_upper_ne_blank {c : Char} (h : isNameChar c = true) : c.toUpper ≠ ' ' := by
  have hc := nameChar_cases h
  by_cases hr : c.toNat ≥ 97 ∧ c.toNat ≤ 122
  · have hk : 65 ≤ c.toNat - 32 ∧ c.toNat - 32 ≤ 90 := by omega
    have hu : c.toUpper = Char.ofNat (c.toNat - 32) := by simp [Char.toUpper, hr]
    rw [hu]
    generalize c.toNat - 32 = k at hk
    obtain ⟨h1, h2⟩ := hk
    interval_cases k <;> decide
  · have hu : c.toUpper = c := by simp only [Char.toUpper, hr, if_false]
    rw [hu]
    exact nameChar_ne_blank h

theorem containsSub_mem (sub : List Char) :
    ∀ l : List Char, containsSub sub l = true → ∀ x ∈ sub, x ∈ l := by
  intro l
  induction l with
  | nil =>
    intro h x hx
    simp only [containsSub, List.isEmpty_iff] at h
    subst h
    exact hx
  | cons c cs ih =>
    intro h x hx
    simp only [containsSub, Bool.or_eq_true] at h
    rcases h with h | h
    · have hp : sub <+: c :: cs := List.isPrefixOf_iff_prefix.mp h
      exact hp.subset hx
    · exact List.mem_cons_of_mem _ (ih h x hx)

theorem dropWhile_of_all_false (q : Char → Bool) :
    ∀ l : List Char, (∀ x ∈ l, q x = false) → l.dropWhile q = l := by
  intro l h
  cases l with
  | nil => rfl
  | cons a l => simp [List.dropWhile, h a (List.mem_cons_self _ _)]

theorem trimSpace_of_plain (l : List Char) (h : ∀ x ∈ l, isNameChar x = true) :
    trimSpace l = l := by
  unfold trimSpace
  rw [dropWhile_of_all_false isSpace l (fun x hx => nameChar_not_space (h x hx)),
    dropWhile_of_all_false isSpace l.reverse
      (fun x hx => nameChar_not_space (h x (List.mem_reverse.mp hx))),
    List.reverse_reverse]

/-- A plain name is taken by `Add` as it is written. -/
theorem isVerbatim_of_plain (name : String) (h : ∀ c ∈ name.data, isNameChar c = true) :
    IsVerbatim name := by
  have hs1 : [',', 'r'].isSuffixOf name.data = false := by
    cases hx : [',', 'r'].isSuffixOf name.data with
    | false => rfl
    | true =>
      have hsuf : [',', 'r'] <:+ name.data := List.isSuffixOf_iff_suffix.mp hx
      exact absurd rfl (nameChar_ne_comma (h ',' (hsuf.subset (by simp))))
  have hs2 : [',', 'w'].isSuffixOf name.data = false := by
    cases hx : [',', 'w'].isSuffixOf name.data with
    | false => rfl
    | true =>
      have hsuf : [',', 'w'] <:+ name.data := List.isSuffixOf_iff_suffix.mp hx
      exact absurd rfl (nameChar_ne_comma (h ',' (hsuf.subset (by simp))))
  have hc1 : containsSub " AS ".data (toUpper name.data) = false := by
    cases hx : containsSub " AS ".data (toUpper name.data) with
    | false => rfl
    | true =>
      have hm := containsSub_mem _ _ hx ' ' (by decide)
      unfold toUpper at hm
      obtain ⟨c, hc, hcu⟩ := List.mem_map.mp hm
      exact absurd hcu (nameChar_upper_ne_blank (h c hc))
  have hc2 : containsSub [' '] name.data = false := by
    cases hx : containsSub [' '] name.data with
    | false => rfl
    | true =>
      have hm := containsSub_mem _ _ hx ' ' (by simp)
      exact absurd rfl (nameChar_ne_blank (h ' ' hm))
  unfold IsVerbatim parseName
  simp only [hs1, hs2, Bool.or_self, Bool.false_eq_true, if_false, trimSpace_of_plain _ h, hc1, hc2]

theorem parseName_access (db : String) (a : Char) (ha : a = 'r' ∨ a = 'w')
    (h : ∀ c ∈ db.data, isNameChar c = true) :
    parseName (db ++ "," ++ String.mk [a]) =
      some { name := db, access := some (String.mk [a]), ss := "" } := by
  have hdata : (db ++ "," ++ String.mk [a]).data = db.data ++ [',', a] := by
    simp [String.data_append]
  have hsuf : ([',', 'r'].isSuffixOf (db.data ++ [',', a]) ||
      [',', 'w'].isSuffixOf (db.data ++ [',', a])) = true := by
    rcases ha with rfl | rfl
    · have : [',', 'r'] <:+ db.data ++ [',', 'r'] := List.suffix_append _ _
      simp [List.isSuffixOf_iff_suffix.mpr this]
    · have : [',', 'w'] <:+ db.data ++ [',', 'w'] := List.suffix_append _ _
      simp [List.isSuffixOf_iff_suffix.mpr this]
  have htake : (db.data ++ [',', a]).take ((db.data ++ [',', a]).length - 2) = db.data := by
    simp
  have hdrop : (db.data ++ [',', a]).drop ((db.data ++ [',', a]).length - 1) = [a] := by
    have : (db.data ++ [',', a]) = (db.data ++ [',']) ++ [a] := by simp
    rw [this, List.drop_append_eq_append_drop]
    simp
  have hc1 : containsSub " AS ".data (toUpper db.data) = false := by
    cases hx : containsSub " AS ".data (toUpper db.data) with
    | false => rfl
    | true =>
      have hm := containsSub_mem _ _ hx ' ' (by decide)
      unfold toUpper at hm
      obtain ⟨c, hc, hcu⟩ := List.mem_map.mp hm
      exact absurd hcu (nameChar_upper_ne_blank (h c hc))
  have hc2 : containsSub [' '] db.data = false := by
    cases hx : containsSub [' '] db.data with
    | false => rfl
    | true =>
      have hm := containsSub_mem _ _ hx ' ' (by simp)
      exact absurd rfl (nameChar_ne_blank (h ' ' hm))
  unfold parseName
  simp only [hdata, hsuf, if_true, htake, hdrop, trimSpace_of_plain _ h, hc1, hc2,
    Bool.false_eq_true, if_false]

theorem plain_chars {name : String} (h : isPlainName name = true) :
    ∀ c ∈ name.data, isNameChar c = true := by
  simp only [isPlainName, Bool.and_eq_true, List.all_eq_true] at h
  exact h.2

/-- A field with plain tags is read as written. -/
theorem readAsWritten_of_plain (f : Field) (h : f.plainTags = true) : f.ReadAsWritten := by
  simp only [Field.plainTags, Bool.and_eq_true, Bool.or_eq_true, beq_iff_eq] at h
  obtain ⟨hdb, hrw⟩ := h
  have hdb2 := plain_chars hdb
  unfold Field.ReadAsWritten Field.columnName
  rcases hrw with (h | h) | h
  · have := isVerbatim_of_plain f.dbTag hdb2
    unfold IsVerbatim at this
    simp [h, this]
  · have := parseName_access f.dbTag 'r' (Or.inl rfl) hdb2
    have e : String.mk ['r'] = "r" := rfl
    rw [e] at this
    simp [h, this]
  · have := parseName_access f.dbTag 'w' (Or.inr rfl) hdb2
    have e : String.mk ['w'] = "w" := rfl
    rw [e] at this
    simp [h, this]

/-! ## Lemmas on `columns` -/

theorem add1_verbatim (c : Columns) (n : String) (hn : IsVerbatim n) :
    c.add1 n = some
      (if c.Cols.any (fun col => col.Name == n) then c
       else { c with Cols := c.Cols ++
          [{ Name := n, Writeable := !(n == c.IDField), Readable := true,
             SelectSQL := (newColumn c { name := n, access := none, ss := "" }).SelectSQL }] }) := by
  unfold IsVerbatim at hn
  unfold Columns.add1
  simp only [hn]
  split
  · rfl
  · simp [newColumn]

/-- After `Add` of verbatim names to columns whose writeable flag is "not the
identifier", `Add` has returned, the flag is still that, and the names are the old
ones and the added ones. -/
theorem Add_verbatim_inv (names : List String) (hv : ∀ n ∈ names, IsVerbatim n) :
    ∀ c : Columns, (∀ col ∈ c.Cols, col.Writeable = !(col.Name == c.IDField)) →
      ∃ c1, c.Add names = some c1 ∧ c1.IDField = c.IDField ∧
        (∀ col ∈ c1.Cols, col.Writeable = !(col.Name == c.IDField)) ∧
        (∀ x, (∃ col ∈ c1.Cols, col.Name = x) ↔
          ((∃ col ∈ c.Cols, col.Name = x) ∨ x ∈ names)) := by
  induction names with
  | nil =>
    intro c hc
    exact ⟨c, rfl, rfl, hc, fun x => by simp⟩
  | cons n ns ih =>
    intro c hc
    have hn : IsVerbatim n := hv n (List.mem_cons_self _ _)
    have hns : ∀ m ∈ ns, IsVerbatim m := fun m hm => hv m (List.mem_cons_of_mem _ hm)
    obtain ⟨c0, hc0, hid0, hW0, hN0⟩ : ∃ c0, c.add1 n = some c0 ∧ c0.IDField = c.IDField ∧
        (∀ col ∈ c0.Cols, col.Writeable = !(col.Name == c.IDField)) ∧
        (∀ x, (∃ col ∈ c0.Cols, col.Name = x) ↔ ((∃ col ∈ c.Cols, col.Name = x) ∨ x = n)) := by
      refine ⟨_, add1_verbatim c n hn, ?_, ?_, ?_⟩
      · split <;> rfl
      · intro col hcol
        split at hcol
        · exact hc col hcol
        · rcases List.mem_append.mp hcol with h | h
          · exact hc col h
          · simp at h; subst h; rfl
      · intro x
        split
        · rename_i hany
          constructor
          · intro h; exact Or.inl h
          · rintro (h | h)
            · exact h
            · subst h
              obtain ⟨col, hcol, hname⟩ := List.any_eq_true.mp hany
              exact ⟨col, hcol, by simpa using hname⟩
        · constructor
          · rintro ⟨col, hcol, hname⟩
            rcases List.mem_append.mp hcol with h | h
            · exact Or.inl ⟨col, h, hname⟩
            · simp at h; subst h; exact Or.inr hname.symm
          · rintro (⟨col, hcol, hname⟩ | h)
            · exact ⟨col, List.mem_append_left _ hcol, hname⟩
            · exact ⟨_, List.mem_append_right _ (List.mem_singleton_self _), h.symm⟩
    obtain ⟨c1, hc1, hid1, hW1, hN1⟩ := ih hns c0 (by rw [hid0]; exact hW0)
    refine ⟨c1, ?_, hid1.trans hid0, ?_, ?_⟩
    · simp only [Columns.Add, hc0]; exact hc1
    · intro col hcol; rw [hW1 col hcol, hid0]
    · intro x
      rw [hN1 x, hN0 x]
      simp only [List.mem_cons]
      exact or_assoc

/-- The columns selected for a non-empty list of verbatim names: `Add` returns, and
the writeable columns are the named ones, the identifier left out. -/
theorem columns_of_names (v : Entity) (names : List String)
    (hne : names ≠ []) (hv : ∀ n ∈ names, IsVerbatim n) :
    ∃ cols, updateColumns v names = some cols ∧
      (NewColumnsWithAlias v.TableName "" v.IDField).Add names = some cols ∧
      ∀ x, x ∈ cols.Writeable.Cols.map Column.Name ↔ (x ∈ names ∧ x ≠ v.IDField) := by
  have hlen : names.length > 0 := List.length_pos.mpr hne
  obtain ⟨cols, hadd, _, hW, hN⟩ := Add_verbatim_inv names hv
    (NewColumnsWithAlias v.TableName "" v.IDField)
    (by intro col hcol; simp [NewColumnsWithAlias] at hcol)
  refine ⟨cols, ?_, hadd, ?_⟩
  · simp [updateColumns, NewModel, Model.TableName, Model.IDField, hlen, hadd]
  · intro x
    simp only [Columns.Writeable, List.mem_map, List.mem_filter]
    constructor
    · rintro ⟨col, ⟨hcol, hw⟩, hname⟩
      have hx : x ∈ names := by
        have := (hN x).mp ⟨col, hcol, hname⟩
        simpa [NewColumnsWithAlias] using this
      refine ⟨hx, ?_⟩
      have := hW col hcol
      rw [hw] at this
      intro hxid
      rw [hname, hxid] at this
      simp [NewColumnsWithAlias] at this
    · rintro ⟨hx, hxid⟩
      obtain ⟨col, hcol, hname⟩ := (hN x).mpr (Or.inr hx)
      refine ⟨col, ⟨hcol, ?_⟩, hname⟩
      rw [hW col hcol, hname]
      simpa [NewColumnsWithAlias] using hxid

theorem forStructField_of_not_column (c : Columns) (f : Field) (h : f.isColumn = false) :
    forStructField c f = some c := by
  unfold Field.isColumn at h
  simp [forStructField, h]

theorem forStructField_proj (c : Columns) (f : Field) (hcol : f.isColumn = true)
    (hr : f.ReadAsWritten) (hfresh : ∀ col ∈ c.Cols, col.Name ≠ f.dbTag) :
    ∃ c1, forStructField c f = some c1 ∧
      c1.Cols.map (fun col => (col.Name, col.Writeable)) =
        c.Cols.map (fun col => (col.Name, col.Writeable)) ++
          [(f.dbTag, f.isAssigned c.IDField)] ∧
      c1.IDField = c.IDField := by
  unfold Field.isColumn at hcol
  unfold Field.ReadAsWritten Field.columnName at hr
  have hany : c.Cols.any (fun col => col.Name == f.dbTag) = false := by
    rw [List.any_eq_false]
    intro col hc
    simpa using hfresh col hc
  have hkeep : ∀ s : String, List.map
      ((fun col : Column => (col.Name, col.Writeable)) ∘ fun col =>
        if col.Name = f.dbTag then
          ({ Name := col.Name, Writeable := false, Readable := true, SelectSQL := s } : Column)
        else col) c.Cols = List.map (fun col => (col.Name, col.Writeable)) c.Cols := by
    intro s
    apply List.map_congr_left
    intro col hc
    simp [hfresh col hc]
  unfold forStructField
  simp only [hcol, if_true]
  by_cases hrw : f.rw = ""
  · have hrw1 : (f.rw != "") = false := by simp [hrw]
    simp only [hrw1, Bool.false_eq_true, if_false] at hr ⊢
    by_cases hs : f.select = ""
    · have hs1 : (f.select != "") = false := by simp [hs]
      simp [Columns.add1, hr, hany, newColumn, Field.isAssigned, hrw, hs]
    · have hs2 : (f.select == "") = false := by simpa using hs
      simp [Columns.add1, hr, hany, newColumn, Field.isAssigned, hrw, hs, Columns.setSelectSQL]
      rw [hkeep]
      simp [hs2]
  · have hrw1 : (f.rw != "") = true := by simpa using hrw
    simp only [hrw1, if_true] at hr ⊢
    by_cases hs : f.select = ""
    · have hs1 : (f.select != "") = false := by simp [hs]
      simp [Columns.add1, hr, hany, newColumn, Field.isAssigned, hrw, hs]
    · have hs2 : (f.select == "") = false := by simpa using hs
      simp [Columns.add1, hr, hany, newColumn, Field.isAssigned, hrw, hs, Columns.setSelectSQL]
      rw [hkeep]
      simp [hs2]

theorem forStruct_fold_proj :
    ∀ (fs : List Field) (c : Columns),
      (∀ f ∈ fs, f.isColumn = true → f.ReadAsWritten) →
      ((fs.filter Field.isColumn).map Field.dbTag).Nodup →
      (∀ col ∈ c.Cols, ∀ f ∈ fs, f.isColumn = true → col.Name ≠ f.dbTag) →
      ∃ c1, forStructFields c fs = some c1 ∧
        c1.Cols.map (fun col => (col.Name, col.Writeable)) =
          c.Cols.map (fun col => (col.Name, col.Writeable)) ++
            (fs.filter Field.isColumn).map (fun f => (f.dbTag, f.isAssigned c.IDField)) := by
  intro fs
  induction fs with
  | nil => intro c _ _ _; exact ⟨c, rfl, by simp⟩
  | cons f fs ih =>
    intro c hr hnd hfresh
    cases hcol : f.isColumn with
    | false =>
      have hnd2 : ((fs.filter Field.isColumn).map Field.dbTag).Nodup := by
        simpa [List.filter_cons, hcol] using hnd
      obtain ⟨c1, h1, h2⟩ := ih c (fun g hg => hr g (List.mem_cons_of_mem _ hg)) hnd2
        (fun col hc g hg => hfresh col hc g (List.mem_cons_of_mem _ hg))
      refine ⟨c1, ?_, ?_⟩
      · simp only [forStructFields, forStructField_of_not_column c f hcol]; exact h1
      · rw [h2]; simp [List.filter_cons, hcol]
    | true =>
      have hnd1 : (f.dbTag :: (fs.filter Field.isColumn).map Field.dbTag).Nodup := by
        simpa [List.filter_cons, hcol] using hnd
      obtain ⟨hnotin, hnd2⟩ := List.nodup_cons.mp hnd1
      obtain ⟨c0, hc0, hp, hid⟩ := forStructField_proj c f hcol
        (hr f (List.mem_cons_self _ _) hcol)
        (fun col hc => hfresh col hc f (List.mem_cons_self _ _) hcol)
      have hfresh2 : ∀ col ∈ c0.Cols, ∀ g ∈ fs, g.isColumn = true → col.Name ≠ g.dbTag := by
        intro col hc g hg hgc
        have hmem : (col.Name, col.Writeable) ∈
            c0.Cols.map (fun col => (col.Name, col.Writeable)) := List.mem_map_of_mem _ hc
        rw [hp] at hmem
        rcases List.mem_append.mp hmem with h | h
        · obtain ⟨col2, hc2, heq⟩ := List.mem_map.mp h
          have hn : col2.Name = col.Name := by simpa using congrArg Prod.fst heq
          rw [← hn]
          exact hfresh col2 hc2 g (List.mem_cons_of_mem _ hg) hgc
        · simp at h
          rw [h.1]
          intro hfg
          apply hnotin
          rw [hfg]
          exact List.mem_map_of_mem _ (List.mem_filter.mpr ⟨hg, hgc⟩)
      obtain ⟨c1, h1, h2⟩ := ih c0 (fun g hg => hr g (List.mem_cons_of_mem _ hg)) hnd2 hfresh2
      refine ⟨c1, ?_, ?_⟩
      · simp only [forStructFields, hc0]; exact h1
      · rw [h2, hp, hid]; simp [List.filter_cons, hcol]

/-- The columns assigned when no column is named: the fields that stand for a column
and are assigned, in the order of the struct. -/
theorem columns_of_struct (v : Entity)
    (hr : ∀ f ∈ v.fields, f.isColumn = true → f.ReadAsWritten)
    (hnd : ((v.fields.filter Field.isColumn).map Field.dbTag).Nodup) :
    ∃ cols, updateColumns v [] = some cols ∧
      cols.Writeable.Cols.map Column.Name =
        (v.fields.filter (fun f => f.isColumn && f.isAssigned v.IDField)).map Field.dbTag := by
  obtain ⟨c1, hc1, hp⟩ := forStruct_fold_proj v.fields
    (NewColumnsWithAlias v.TableName "" v.IDField) hr hnd
    (by intro col hc; simp [NewColumnsWithAlias] at hc)
  simp only [NewColumnsWithAlias, List.map_nil, List.nil_append] at hp
  refine ⟨c1, ?_, ?_⟩
  · simp only [updateColumns, NewModel, Model.TableName, Model.IDField, ForStructWithAlias]
    simp only [NewColumnsWithAlias] at hc1
    simp [NewColumnsWithAlias, hc1]
  · have hgen : ∀ (l : List Column), (l.filter (fun col => col.Writeable)).map Column.Name =
        ((l.map (fun col => (col.Name, col.Writeable))).filter (fun q => q.2)).map
          (fun q => q.1) := by
      intro l
      induction l with
      | nil => rfl
      | cons a l ih =>
        cases hw : a.Writeable <;> simp [List.filter_cons, hw, ih]
    simp only [Columns.Writeable]
    rw [hgen, hp]
    generalize v.fields = fs
    induction fs with
    | nil => rfl
    | cons f fs ih =>
      cases hc : f.isColumn <;> cases ha : f.isAssigned v.IDField <;>
        simp [List.filter_cons, hc, ha, ih]

/-! ## Lemmas on `update` -/

theorem execParts_fst (be : Backend) (st : UpdateStmt) (v : Entity) :
    (execParts be st v).1 =
      match bindAll v st.setCols, v.bind st.whereID, v.bind "nid" with
      | .error e, _, _ => .error e
      | .ok _, none, _ => .error (.missingName st.whereID)
      | .ok _, some _, none => .error (.missingName "nid")
      | .ok bound, some idv, some nidv =>
        match be.execErr with
        | some e => .error e
        | none =>
          if st.setCols.isEmpty then .error .syntaxError
          else .ok (countMatches st idv nidv bound be.countsChanged be.tables) := by
  unfold execParts
  split
  · rfl
  · rfl
  · rfl
  · split
    · rfl
    · split <;> rfl

theorem execParts_tables (be : Backend) (st : UpdateStmt) (v : Entity) :
    (execParts be st v).2 = be.tables ∨
    ∃ bound idv nidv, bindAll v st.setCols = .ok bound ∧ v.bind st.whereID = some idv ∧
      v.bind "nid" = some nidv ∧ be.execErr = none ∧
      (execParts be st v).2 = updateTables st idv nidv bound be.tables := by
  unfold execParts
  cases hb : bindAll v st.setCols with
  | error e => left; rfl
  | ok bound =>
    cases hi : v.bind st.whereID with
    | none => left; rfl
    | some idv =>
      cases hn : v.bind "nid" with
      | none => left; rfl
      | some nidv =>
        cases he : be.execErr with
        | some e => left; rfl
        | none =>
          by_cases hempty : st.setCols.isEmpty = true
          · left; simp [hempty]
          · right; exact ⟨bound, idv, nidv, rfl, rfl, rfl, rfl, by simp [hempty]⟩

theorem update_of_stmt (p : Persister) (be : Backend) (v : Entity) (names : List String)
    (quote : String → String) (st : UpdateStmt)
    (hq : p.GetConnection.Dialect.Quote = some quote)
    (hst : updateStmt quote v names = some st) :
    update p be v names =
      .returned (resultOf be (NamedExec be st v).1) (NamedExec be st v).2 := by
  unfold update
  simp only [hq, hst]
  have hr : (NamedExec be st v).2.rowsErr = be.rowsErr := rfl
  rcases hx : NamedExec be st v with ⟨res, be1⟩
  rw [hx] at hr
  simp only at hr
  cases res with
  | error e => rfl
  | ok n =>
    simp only [RowsAffected, resultOf, hr]
    cases be.rowsErr with
    | some e => rfl
    | none =>
      simp only []
      split <;> rfl

theorem update_of_safe (p : Persister) (be : Backend) (v : Entity) (names : List String)
    (quote : String → String) (st : UpdateStmt)
    (hq : p.GetConnection.Dialect.Quote = some quote)
    (hst : updateStmt quote v names = some st) (hs : st.Safe = true) :
    update p be v names =
      .returned (resultOf be (execParts be st v).1)
        { be with calls := be.calls ++ [st.text], tables := (execParts be st v).2 } := by
  rw [update_of_stmt p be v names quote st hq hst]
  simp only [NamedExec, hs, if_true]

theorem update_not_quotable (p : Persister) (be : Backend) (v : Entity) (names : List String)
    (hq : p.GetConnection.Dialect.Quote = none) :
    update p be v names = .returned (some Err.notQuoter) be := by
  unfold update
  simp only [hq]

theorem rowMatches_true {whereID : String} {idv nidv : Value} {r : Row}
    (h : rowMatches whereID idv nidv r = true) :
    Row.get r whereID = some idv ∧ Row.get r "nid" = some nidv := by
  simp only [rowMatches, Bool.and_eq_true] at h
  exact ⟨sqlEq_true h.1, sqlEq_true h.2⟩

/-- The statement leaves a cell as it is when the column is not assigned, or is
assigned the value the predicate found there. -/
theorem updateTables_columnCells (st : UpdateStmt) (idv nidv : Value)
    (bound : List (String × Value)) (c : String)
    (hc : List.lookup c bound = none ∨
      (List.lookup c bound = some idv ∧ c = st.whereID) ∨
      (List.lookup c bound = some nidv ∧ c = "nid")) (ts : List Table) :
    columnCells c (updateTables st idv nidv bound ts) = columnCells c ts := by
  unfold columnCells updateTables
  rw [List.map_map]
  apply List.map_congr_left
  intro t _
  simp only [Function.comp]
  by_cases hn : (t.name == st.table) = true
  · simp only [hn, if_true, updateRows, List.map_map]
    congr 1
    apply List.map_congr_left
    intro r _
    simp only [Function.comp]
    by_cases hm : rowMatches st.whereID idv nidv r = true
    · simp only [hm, if_true]
      obtain ⟨hi, hni⟩ := rowMatches_true hm
      rcases hc with h | ⟨h, rfl⟩ | ⟨h, rfl⟩
      · rw [assignRow_get, h]
      · exact assignRow_get_of_eq bound _ idv r hi (fun y hy => by rw [h] at hy; cases hy; rfl)
      · exact assignRow_get_of_eq bound _ nidv r hni (fun y hy => by rw [h] at hy; cases hy; rfl)
    · simp [hm]
  · simp [hn]

theorem plainStatement_cols {v : Entity} {names : List String}
    (h : plainStatement v names = true) :
    ∃ cols, updateColumns v names = some cols ∧
      assignedColumns v names = cols.Writeable.Cols.map Column.Name ∧
      ∀ quote : String → String, (stmtOf quote v cols).Safe = true ∧
        updateStmt quote v names = some (stmtOf quote v cols) := by
  unfold plainStatement at h
  cases hc : updateColumns v names with
  | none => simp [hc] at h
  | some cols =>
    simp only [hc] at h
    refine ⟨cols, rfl, by simp [assignedColumns, hc], fun quote => ⟨h, by simp [updateStmt, hc]⟩⟩

/-- A call with a plain statement: the tables after it are the ones before, or the
ones the statement's parts make of them. -/
theorem update_tables_cases (p : Persister) (be : Backend) (v : Entity) (names : List String)
    (hplain : plainStatement v names = true) :
    (update p be v names).tablesOr be.tables = be.tables ∨
    ∃ quote cols bound idv nidv, p.GetConnection.Dialect.Quote = some quote ∧
      updateColumns v names = some cols ∧
      bindAll v (assignedColumns v names) = .ok bound ∧
      v.bind v.IDField = some idv ∧ v.bind "nid" = some nidv ∧ be.execErr = none ∧
      (update p be v names).tablesOr be.tables =
        updateTables (stmtOf quote v cols) idv nidv bound be.tables := by
  obtain ⟨cols, hc, ha, hs⟩ := plainStatement_cols hplain
  cases hq : p.GetConnection.Dialect.Quote with
  | none => left; rw [update_not_quotable p be v names hq]; rfl
  | some quote =>
    obtain ⟨hsafe, hst⟩ := hs quote
    rw [update_of_safe p be v names quote _ hq hst hsafe]
    simp only [Outcome.tablesOr]
    rcases execParts_tables be (stmtOf quote v cols) v with h | ⟨b, i, n, hb, hi, hn, he, h⟩
    · left; exact h
    · right
      exact ⟨quote, cols, b, i, n, rfl, hc, by rw [ha]; exact hb, hi, hn, he, h⟩

/-- The result of a call with a plain statement in which every named parameter is
bound and the backend answers without error. -/
theorem update_run (p : Persister) (be : Backend) (v : Entity) (names : List String)
    (quote : String → String) (cols : Columns) (bound : List (String × Value))
    (idv nidv : Value)
    (hq : p.GetConnection.Dialect.Quote = some quote)
    (hc : updateColumns v names = some cols) (hs : (stmtOf quote v cols).Safe = true)
    (hb : bindAll v (stmtOf quote v cols).setCols = .ok bound)
    (hi : v.bind v.IDField = some idv) (hn : v.bind "nid" = some nidv)
    (he : be.execErr = none) (hr : be.rowsErr = none)
    (hset : (stmtOf quote v cols).setCols ≠ []) :
    (update p be v names).err =
      some (if countMatches (stmtOf quote v cols) idv nidv bound be.countsChanged be.tables == 0
        then some Err.ErrNoRows else none) := by
  have hst : updateStmt quote v names = some (stmtOf quote v cols) := by simp [updateStmt, hc]
  have hi2 : v.bind (stmtOf quote v cols).whereID = some idv := hi
  have hempty : (stmtOf quote v cols).setCols.isEmpty = false := by
    cases hx : (stmtOf quote v cols).setCols with
    | nil => exact absurd hx hset
    | cons a l => rfl
  rw [update_of_safe p be v names quote _ hq hst hs, execParts_fst]
  simp only [hb, hi2, hn, he, hempty, Outcome.err, resultOf, hr]
  rfl

/-- The rows of one table that do not carry the tenant id `nidv`. -/
theorem updateRows_other_tenants (whereID : String) (idv nidv : Value)
    (bound : List (String × Value))
    (hb : ∀ y, List.lookup "nid" bound = some y → y = nidv) (rows : List Row) :
    (updateRows whereID idv nidv bound rows).filter (fun r => !(Row.get r "nid" == some nidv)) =
      rows.filter (fun r => !(Row.get r "nid" == some nidv)) := by
  induction rows with
  | nil => rfl
  | cons r rows ih =>
    unfold updateRows at ih ⊢
    by_cases hm : rowMatches whereID idv nidv r = true
    · have hn := (rowMatches_true hm).2
      have hn2 : Row.get (assignRow bound r) "nid" = some nidv := by
        rw [assignRow_get_of_eq bound "nid" nidv r hn hb]; exact hn
      simp only [List.map_cons, hm, if_true, List.filter_cons, hn, hn2, beq_self_eq_true,
        Bool.not_true, Bool.false_eq_true, if_false]
      exact ih
    · have hm2 : rowMatches whereID idv nidv r = false := by simpa using hm
      simp only [List.map_cons, hm2, Bool.false_eq_true, if_false, List.filter_cons]
      rw [ih]

/-- Whatever it returns, a call of `update(v)` with a statement over plain
identifiers changes no row whose tenant id differs from the one `v` carries: the
rows of other tenants are the same after the call. -/
theorem update_other_tenants_untouched (p : Persister) (be : Backend) (v : Entity)
    (columnNames : List String) (nidv : Value) (hn : v.bind "nid" = some nidv)
    (hplain : plainStatement v columnNames = true) :
    ((update p be v columnNames).tablesOr be.tables).map
        (fun t => (t.name, t.rows.filter (fun r => !(Row.get r "nid" == some nidv)))) =
      be.tables.map
        (fun t => (t.name, t.rows.filter (fun r => !(Row.get r "nid" == some nidv)))) := by
  rcases update_tables_cases p be v columnNames hplain with
    h | ⟨q, cols, bound, i2, n2, _, _, hb, _, hn2, _, h⟩
  · rw [h]
  · rw [hn] at hn2
    cases hn2
    rw [h]
    have hl := bindAll_lookup v _ bound hb
    unfold updateTables
    rw [List.map_map]
    apply List.map_congr_left
    intro t _
    simp only [Function.comp]
    by_cases hname : (t.name == (stmtOf q v cols).table) = true
    · simp only [hname, if_true]
      rw [updateRows_other_tenants _ _ _ _ (fun y hy => by
        have := hl "nid" y hy
        rw [hn] at this
        exact (Option.some.inj this).symm)]
    · simp [hname]

/-! ## The claims -/


/-- C8: `WithNetworkID(sid)`, called on the persister at address `a`, returns the
address `b` of a new persister whose `NetworkID` is `sid` and whose connection,
migration box, dependencies and `isSQLite` flag are those of the receiver; the
receiver still sits unchanged at `a`; and a further `WithNetworkID(sid2)` on the new
handle yields a handle scoped to `sid2`, again leaving the first persister as it
was. -/
theorem WithNetworkID_new_handle (h : Heap) (a : Nat) (p : Persister) (sid : UUID)
    (hp : h[a]? = some p) :
    ∃ h1 b q, WithNetworkID h a sid = some (h1, b) ∧ h1[b]? = some q ∧ b ≠ a ∧
      q.NetworkID = sid ∧ q.c = p.c ∧ q.mb = p.mb ∧ q.r = p.r ∧ q.isSQLite = p.isSQLite ∧
      h1[a]? = some p ∧
      ∀ sid2 : UUID, ∃ h2 b2 q2, WithNetworkID h1 b sid2 = some (h2, b2) ∧
        h2[b2]? = some q2 ∧ q2.NetworkID = sid2 ∧ q2.c = p.c ∧ h2[a]? = some p := by
  have ha : a < h.length := by
    rcases Nat.lt_or_ge a h.length with hlt | hge
    · exact hlt
    · rw [List.getElem?_eq_none hge] at hp; cases hp
  have hnew : ∀ (l : List Persister) (x : Persister), (l ++ [x])[l.length]? = some x := by
    intro l x; simp
  refine ⟨h ++ [{ p with nid := sid }], h.length, { p with nid := sid }, ?_, hnew _ _,
    Nat.ne_of_gt ha, rfl, rfl, rfl, rfl, rfl, ?_, ?_⟩
  · simp [WithNetworkID, List.get?_eq_getElem?, hp]
  · rw [List.getElem?_append_left ha]; exact hp
  · intro sid2
    refine ⟨(h ++ [{ p with nid := sid }]) ++ [{ p with nid := sid2 }],
      (h ++ [{ p with nid := sid }]).length, { p with nid := sid2 }, ?_, hnew _ _, rfl, rfl, ?_⟩
    · simp [WithNetworkID, List.get?_eq_getElem?]
    · rw [List.getElem?_append_left (by simp; omega), List.getElem?_append_left ha]; exact hp

/-- Witness of C8: the handle at address 0, scoped to tenant 7, rescoped to 9. -/
theorem WithNetworkID_new_handle_witness :
    ∃ h1 b q, WithNetworkID [sampleHandle 7] 0 9 = some (h1, b) ∧ h1[b]? = some q ∧ b ≠ 0 ∧
      q.NetworkID = 9 ∧ q.c = (sampleHandle 7).c ∧ q.mb = (sampleHandle 7).mb ∧
      q.r = (sampleHandle 7).r ∧ q.isSQLite = (sampleHandle 7).isSQLite ∧
      h1[0]? = some (sampleHandle 7) ∧
      ∀ sid2 : UUID, ∃ h2 b2 q2, WithNetworkID h1 b sid2 = some (h2, b2) ∧
        h2[b2]? = some q2 ∧ q2.NetworkID = sid2 ∧ q2.c = (sampleHandle 7).c ∧
        h2[0]? = some (sampleHandle 7) :=
  WithNetworkID_new_handle [sampleHandle 7] 0 (sampleHandle 7) 9 rfl

/-- C1: when the dialect quotes, the store executes the UPDATE statement without
error and reports an affected-row count of 0, `update` returns `sqlcon.ErrNoRows`:
not nil, and no other error. -/
theorem update_zero_rows_is_ErrNoRows (p : Persister) (be be1 : Backend) (v : Entity)
    (columnNames : List String) (quote : String → String) (st : UpdateStmt) (n : Nat)
    (hq : p.GetConnection.Dialect.Quote = some quote)
    (hst : updateStmt quote v columnNames = some st)
    (hexec : NamedExec be st v = (.ok n, be1))
    (hcount : RowsAffected be1 n = .ok 0) :
    update p be v columnNames = .returned (some Err.ErrNoRows) be1 := by
  simp [update, hq, hst, hexec, hcount]

/-- Witness of C1: a flow of tenant 9 with identifier 1, in a store whose only flow
with identifier 1 belongs to tenant 7. -/
theorem update_zero_rows_is_ErrNoRows_witness :
    (update (sampleHandle 9) (sampleStore [sampleRow 1 7 "orig"])
      (sampleFlow 1 9 "updated") ["request_url"]).err = some (some Err.ErrNoRows) :=
  congrArg Outcome.err
    (update_zero_rows_is_ErrNoRows (sampleHandle 9) (sampleStore [sampleRow 1 7 "orig"])
      (NamedExec (sampleStore [sampleRow 1 7 "orig"])
        (stmtOf sampleQuote (sampleFlow 1 9 "updated") sampleColumns)
        (sampleFlow 1 9 "updated")).2
      (sampleFlow 1 9 "updated") ["request_url"] sampleQuote
      (stmtOf sampleQuote (sampleFlow 1 9 "updated") sampleColumns)
      0 rfl (by decide) rfl rfl)

/-- C9 (amended): `update` returns nil exactly when the dialect quotes, the statement
is built, the store executes it without error, the affected-row count is obtained
without error and is at least 1; it does not return at all (it panics) exactly when
the dialect quotes and `columns.Add` panics on a column name; in every other case
it returns an error.  When the dialect does not quote, the error is returned with
the store untouched: no statement has been handed to it. -/
theorem update_nil_iff (p : Persister) (be : Backend) (v : Entity) (columnNames : List String) :
    ((update p be v columnNames).err = some none ↔
      ∃ quote st n be1 count, p.GetConnection.Dialect.Quote = some quote ∧
        updateStmt quote v columnNames = some st ∧
        NamedExec be st v = (.ok n, be1) ∧
        RowsAffected be1 n = .ok count ∧ 1 ≤ count) ∧
    ((update p be v columnNames).err = none ↔
      (p.GetConnection.Dialect.Quote.isSome = true ∧ updateColumns v columnNames = none)) ∧
    ((update p be v columnNames).err ≠ some none → (update p be v columnNames).err ≠ none →
      ∃ e, (update p be v columnNames).err = some (some e)) ∧
    (p.GetConnection.Dialect.Quote = none →
      update p be v columnNames = .returned (some Err.notQuoter) be) := by
  refine ⟨?_, ?_, ?_, update_not_quotable p be v columnNames⟩
  · constructor
    · intro h
      cases hq : p.GetConnection.Dialect.Quote with
      | none => simp [update, hq, Outcome.err] at h
      | some quote =>
        cases hst : updateStmt quote v columnNames with
        | none => simp [update, hq, hst, Outcome.err] at h
        | some st =>
          rcases hexec : NamedExec be st v with ⟨res, be1⟩
          cases res with
          | error e => simp [update, hq, hst, hexec, Outcome.err] at h
          | ok n =>
            cases hra : RowsAffected be1 n with
            | error e => simp [update, hq, hst, hexec, hra, Outcome.err] at h
            | ok count =>
              refine ⟨quote, st, n, be1, count, rfl, hst, hexec, hra, ?_⟩
              by_contra hc
              have : count = 0 := by omega
              simp [update, hq, hst, hexec, hra, this, Outcome.err] at h
    · rintro ⟨quote, st, n, be1, count, hq, hst, hexec, hra, hc⟩
      have : ¬ count = 0 := by omega
      simp [update, hq, hst, hexec, hra, this, Outcome.err]
  · cases hq : p.GetConnection.Dialect.Quote with
    | none => simp [update, hq, Outcome.err]
    | some quote =>
      cases hc : updateColumns v columnNames with
      | none => simp [update, hq, updateStmt, hc, Outcome.err]
      | some cols =>
        rw [update_of_stmt p be v columnNames quote (stmtOf quote v cols) hq
          (by simp [updateStmt, hc])]
        simp [Outcome.err]
  · intro h1 h2
    cases hx : (update p be v columnNames).err with
    | none => exact absurd hx h2
    | some e =>
      cases e with
      | none => exact absurd hx h1
      | some e => exact ⟨e, rfl⟩

/-- Counterexample to C9: for the column name `a b ` (with a trailing blank)
`columns.Add` slices past the end of the trimmed name and panics; `update` returns
neither nil nor an error. -/
theorem update_panics_on_trailing_blank :
    parseName "a b " = none ∧
    (update (sampleHandle 7) (sampleStore [sampleRow 1 7 "orig"]) (sampleFlow 1 7 "updated")
      ["a b "]).err = none := by
  decide

/-- C6 (amended): when every name pasted into the statement (table, alias,
identifier column, assigned columns) is a plain identifier, then whatever entity
`update` is called with, and whether it returns nil or an error, every row of every
table has afterwards the identifier and the tenant id it had before, and the tables
other than the entity's are as they were. -/
theorem update_keeps_identifier_and_tenant (p : Persister) (be : Backend) (v : Entity)
    (columnNames : List String) (hplain : plainStatement v columnNames = true) :
    columnCells v.IDField ((update p be v columnNames).tablesOr be.tables) =
      columnCells v.IDField be.tables ∧
    columnCells "nid" ((update p be v columnNames).tablesOr be.tables) =
      columnCells "nid" be.tables ∧
    ((update p be v columnNames).tablesOr be.tables).filter
        (fun t => !(t.name == v.TableName)) =
      be.tables.filter (fun t => !(t.name == v.TableName)) := by
  rcases update_tables_cases p be v columnNames hplain with
    h | ⟨quote, cols, bound, idv, nidv, _, _, hb, hi, hn, _, h⟩
  · rw [h]; exact ⟨rfl, rfl, rfl⟩
  · rw [h]
    have hl := bindAll_lookup v _ bound hb
    refine ⟨?_, ?_, ?_⟩
    · apply updateTables_columnCells
      cases hx : List.lookup v.IDField bound with
      | none => exact Or.inl rfl
      | some x =>
        have := hl _ x hx
        rw [hi] at this
        cases this
        exact Or.inr (Or.inl ⟨rfl, rfl⟩)
    · apply updateTables_columnCells
      cases hx : List.lookup "nid" bound with
      | none => exact Or.inl rfl
      | some x =>
        have := hl _ x hx
        rw [hn] at this
        cases this
        exact Or.inr (Or.inr ⟨rfl, rfl⟩)
    · exact updateTables_other_tables (stmtOf quote v cols) idv nidv bound be.tables

/-- Witness of C6 (amended): flow 1 of tenant 7 is given a new `request_url`; the
identifiers and tenant ids of both flows stay. -/
theorem update_keeps_identifier_and_tenant_witness :
    columnCells "id" ((update (sampleHandle 7)
        (sampleStore [sampleRow 1 7 "orig", sampleRow 2 9 "other"])
        (sampleFlow 1 7 "updated") ["request_url"]).tablesOr
          (sampleTables [sampleRow 1 7 "orig", sampleRow 2 9 "other"])) =
      columnCells "id" (sampleTables [sampleRow 1 7 "orig", sampleRow 2 9 "other"]) :=
  (update_keeps_identifier_and_tenant (sampleHandle 7)
    (sampleStore [sampleRow 1 7 "orig", sampleRow 2 9 "other"])
    (sampleFlow 1 7 "updated") ["request_url"] (by decide)).1

/-- Counterexample to C6: the column name `id"=:nid--` closes the quoted identifier
and opens a comment; on SQLite the statement that is left is
`UPDATE ... SET "id"=:nid` without a WHERE clause, `update` returns nil, and the
identifier of every flow, the one of tenant 9 included, is rewritten to 7. -/
theorem update_rewrites_identifiers :
    (updateStmt sampleQuote (sampleFlow 1 7 "u") ["id\"=:nid--"]).map UpdateStmt.text =
      some injectedText ∧
    (update (sampleHandle 7) (sqliteStore [sampleRow 1 7 "a", sampleRow 2 9 "b"])
      (sampleFlow 1 7 "u") ["id\"=:nid--"]).err = some none ∧
    columnCells "id" ((update (sampleHandle 7)
      (sqliteStore [sampleRow 1 7 "a", sampleRow 2 9 "b"])
      (sampleFlow 1 7 "u") ["id\"=:nid--"]).tablesOr []) =
      [("selfservice_login_flows", [some (.uuid 7), some (.uuid 7)]),
       ("courier_messages", [some (.uuid 1)])] ∧
    columnCells "id" (sqliteStore [sampleRow 1 7 "a", sampleRow 2 9 "b"]).tables =
      [("selfservice_login_flows", [some (.uuid 1), some (.uuid 2)]),
       ("courier_messages", [some (.uuid 1)])] := by
  decide

theorem no_match_of_other_tenant (v : Entity) (st : UpdateStmt) (idv : Value) (T1 T2 : UUID)
    (ts : List Table) (hT : T1 ≠ T2) (htab : st.table = v.TableName)
    (hwid : st.whereID = v.IDField)
    (hstore : ∀ t ∈ ts, t.name = v.TableName → ∀ r ∈ t.rows,
      Row.get r v.IDField = some idv → Row.get r "nid" = some (.uuid T1)) :
    ∀ t ∈ ts, t.name = st.table → ∀ r ∈ t.rows,
      rowMatches st.whereID idv (.uuid T2) r = false := by
  intro t ht htn r hrr
  cases hm : rowMatches st.whereID idv (.uuid T2) r with
  | false => rfl
  | true =>
    obtain ⟨h1, h2⟩ := rowMatches_true hm
    rw [hwid] at h1
    rw [htab] at htn
    have := hstore t ht htn r hrr h1
    rw [h2] at this
    simp only [Option.some.injEq, Value.uuid.injEq] at this
    exact absurd this.symm hT

/-- C2 (amended): let `T1 ≠ T2`, let every row that carries the identifier of `v`
belong to `T1`, let `v` carry `NID = T2` (the tenant id the tenant predicate is bound
to; the handle's own tenant id is not read), and let every name pasted into the
statement be a plain identifier.  Then `update(v)` leaves every table unchanged,
whatever handle it is called on; and when the statement assigns a column, `v` has a
field for every assigned column, the dialect quotes and the backend answers without
error, it returns `sqlcon.ErrNoRows`. -/
theorem update_foreign_tenant_not_found (p : Persister) (be : Backend) (v : Entity)
    (columnNames : List String) (idv : Value) (T1 T2 : UUID) (hT : T1 ≠ T2)
    (hplain : plainStatement v columnNames = true)
    (hi : v.bind v.IDField = some idv) (hn : v.bind "nid" = some (.uuid T2))
    (hstore : ∀ t ∈ be.tables, t.name = v.TableName → ∀ r ∈ t.rows,
      Row.get r v.IDField = some idv → Row.get r "nid" = some (.uuid T1)) :
    (update p be v columnNames).tablesOr be.tables = be.tables ∧
    (p.GetConnection.Dialect.Quote.isSome = true →
      assignedColumns v columnNames ≠ [] →
      (∀ c ∈ assignedColumns v columnNames, (v.bind c).isSome = true) →
      be.execErr = none → be.rowsErr = none →
      (update p be v columnNames).err = some (some Err.ErrNoRows)) := by
  constructor
  · rcases update_tables_cases p be v columnNames hplain with
      h | ⟨q, cols, bound, i2, n2, _, _, _, hi2, hn2, _, h⟩
    · exact h
    · rw [hi] at hi2
      rw [hn] at hn2
      cases hi2
      cases hn2
      rw [h]
      exact updateTables_of_no_match _ _ _ _ _
        (no_match_of_other_tenant v _ idv T1 T2 be.tables hT rfl rfl hstore)
  · intro hq hset hf he hr
    obtain ⟨quote, hq2⟩ := Option.isSome_iff_exists.mp hq
    obtain ⟨cols, hc, ha, hs⟩ := plainStatement_cols hplain
    rw [ha] at hset hf
    obtain ⟨bound, hb⟩ := bindAll_ok v (stmtOf quote v cols).setCols hf
    rw [update_run p be v columnNames quote cols bound idv (.uuid T2) hq2 hc (hs quote).1 hb hi hn
      he hr hset,
      countMatches_of_no_match _ _ _ _ _ _
        (no_match_of_other_tenant v _ idv T1 T2 be.tables hT rfl rfl hstore)]
    rfl

/-- Witness of C2 (amended): the flow 1 of tenant 7, updated with `NID = 9`. -/
theorem update_foreign_tenant_not_found_witness :
    (update (sampleHandle 9) (sampleStore [sampleRow 1 7 "orig"])
      (sampleFlow 1 9 "updated") []).tablesOr (sampleTables [sampleRow 1 7 "orig"]) =
        sampleTables [sampleRow 1 7 "orig"] ∧
    (update (sampleHandle 9) (sampleStore [sampleRow 1 7 "orig"])
      (sampleFlow 1 9 "updated") []).err = some (some Err.ErrNoRows) :=
  have h := update_foreign_tenant_not_found (sampleHandle 9) (sampleStore [sampleRow 1 7 "orig"])
    (sampleFlow 1 9 "updated") [] (.uuid 1) 7 9 (by decide) (by decide) rfl rfl (by decide)
  ⟨h.1, h.2 rfl (by decide) (by decide) rfl rfl⟩

/-- Counterexample to C2: the handle is obtained by `WithNetworkID(9)` from a handle
of tenant 7, the flow and its row carry tenant 7; `update` on the handle of tenant 9
returns nil and the row of tenant 7 is rewritten. -/
theorem update_ignores_handle_tenant :
    (∃ h, WithNetworkID [sampleHandle 7] 0 9 = some (h, 1) ∧ h[1]? = some (sampleHandle 9)) ∧
    (sampleHandle 9).NetworkID = 9 ∧
    (sampleFlow 1 7 "updated").bind "nid" = some (.uuid 7) ∧
    (update (sampleHandle 9) (sampleStore [sampleRow 1 7 "orig"])
      (sampleFlow 1 7 "updated") []).err = some none ∧
    (update (sampleHandle 9) (sampleStore [sampleRow 1 7 "orig"])
      (sampleFlow 1 7 "updated") []).tablesOr [] = sampleTables [sampleRow 1 7 "updated"] ∧
    sampleTables [sampleRow 1 7 "updated"] ≠ sampleTables [sampleRow 1 7 "orig"] :=
  ⟨⟨_, rfl, rfl⟩, by decide⟩

theorem mem_withoutID {tn idField : String} {idv : Option Value} {ts : List Table} {t : Table}
    (h : t ∈ withoutID tn idField idv ts) (hn : t.name = tn) :
    ∀ r ∈ t.rows, Row.get r idField ≠ idv := by
  unfold withoutID at h
  obtain ⟨t0, _, ht0⟩ := List.mem_map.mp h
  by_cases hb : (t0.name == tn) = true
  · simp only [hb, if_true] at ht0
    subst ht0
    intro r hr
    simp only [List.mem_filter] at hr
    simpa using hr.2
  · simp only [hb] at ht0
    subst ht0
    exact absurd (by simpa using hn) hb

/-- C3: let every row of the store `S2` that carries the identifier of `v` carry a
tenant id other than the one bound to `:nid`, and let `S1` be the same store without
those rows.  With a working backend (the dialect quotes, the backend answers without
error) and a statement over plain identifiers that assigns a column and whose
parameters `v` all binds, `update(v)` returns `sqlcon.ErrNoRows` on `S1` and on `S2`
alike and changes neither store. -/
theorem update_absent_or_foreign (p : Persister) (be : Backend) (v : Entity)
    (columnNames : List String)
    (hforeign : ∀ t ∈ be.tables, t.name = v.TableName → ∀ r ∈ t.rows,
      Row.get r v.IDField = v.bind v.IDField → Row.get r "nid" ≠ v.bind "nid")
    (hplain : plainStatement v columnNames = true)
    (hq : p.GetConnection.Dialect.Quote.isSome = true)
    (hset : assignedColumns v columnNames ≠ [])
    (hf : ∀ c ∈ assignedColumns v columnNames, (v.bind c).isSome = true)
    (hi : (v.bind v.IDField).isSome = true) (hn : (v.bind "nid").isSome = true)
    (he : be.execErr = none) (hr : be.rowsErr = none) :
    (update p (withoutEntity v be) v columnNames).err = some (some Err.ErrNoRows) ∧
    (update p be v columnNames).err = some (some Err.ErrNoRows) ∧
    (update p (withoutEntity v be) v columnNames).tablesOr (withoutEntity v be).tables =
      (withoutEntity v be).tables ∧
    (update p be v columnNames).tablesOr be.tables = be.tables := by
  obtain ⟨quote, hq2⟩ := Option.isSome_iff_exists.mp hq
  obtain ⟨idv, hi2⟩ := Option.isSome_iff_exists.mp hi
  obtain ⟨nidv, hn2⟩ := Option.isSome_iff_exists.mp hn
  obtain ⟨cols, hc, ha, hs⟩ := plainStatement_cols hplain
  rw [ha] at hset hf
  obtain ⟨bound, hb⟩ := bindAll_ok v (stmtOf quote v cols).setCols hf
  have hno2 : ∀ t ∈ be.tables, t.name = (stmtOf quote v cols).table → ∀ r ∈ t.rows,
      rowMatches (stmtOf quote v cols).whereID idv nidv r = false := by
    intro t ht htn r hrr
    cases hm : rowMatches (stmtOf quote v cols).whereID idv nidv r with
    | false => rfl
    | true =>
      obtain ⟨h1, h2⟩ := rowMatches_true hm
      exact absurd (h2.trans hn2.symm) (hforeign t ht htn r hrr (h1.trans hi2.symm))
  have hno1 : ∀ t ∈ (withoutEntity v be).tables, t.name = (stmtOf quote v cols).table →
      ∀ r ∈ t.rows, rowMatches (stmtOf quote v cols).whereID idv nidv r = false := by
    intro t ht htn r hrr
    cases hm : rowMatches (stmtOf quote v cols).whereID idv nidv r with
    | false => rfl
    | true =>
      obtain ⟨h1, _⟩ := rowMatches_true hm
      exact absurd (h1.trans hi2.symm) (mem_withoutID ht htn r hrr)
  have he1 : (withoutEntity v be).execErr = none := he
  have hr1 : (withoutEntity v be).rowsErr = none := hr
  refine ⟨?_, ?_, ?_, ?_⟩
  · rw [update_run p (withoutEntity v be) v columnNames quote cols bound idv nidv hq2 hc
      (hs quote).1 hb hi2 hn2 he1 hr1 hset, countMatches_of_no_match _ _ _ _ _ _ hno1]
    rfl
  · rw [update_run p be v columnNames quote cols bound idv nidv hq2 hc
      (hs quote).1 hb hi2 hn2 he hr hset, countMatches_of_no_match _ _ _ _ _ _ hno2]
    rfl
  · rcases update_tables_cases p (withoutEntity v be) v columnNames hplain with
      h | ⟨q, cols2, bound2, i3, n3, _, _, _, hi3, hn3, _, h⟩
    · exact h
    · rw [hi2] at hi3
      rw [hn2] at hn3
      cases hi3
      cases hn3
      rw [h]
      exact updateTables_of_no_match _ _ _ _ _ hno1
  · rcases update_tables_cases p be v columnNames hplain with
      h | ⟨q, cols2, bound2, i3, n3, _, _, _, hi3, hn3, _, h⟩
    · exact h
    · rw [hi2] at hi3
      rw [hn2] at hn3
      cases hi3
      cases hn3
      rw [h]
      exact updateTables_of_no_match _ _ _ _ _ hno2

/-- Witness of C3: identifier 1 exists only under tenant 7, the update is bound to
tenant 9. -/
theorem update_absent_or_foreign_witness :
    (update (sampleHandle 9)
        (withoutEntity (sampleFlow 1 9 "updated")
          (sampleStore [sampleRow 1 7 "orig", sampleRow 2 9 "other"]))
        (sampleFlow 1 9 "updated") []).err = some (some Err.ErrNoRows) ∧
    (update (sampleHandle 9) (sampleStore [sampleRow 1 7 "orig", sampleRow 2 9 "other"])
        (sampleFlow 1 9 "updated") []).err = some (some Err.ErrNoRows) ∧
    (withoutEntity (sampleFlow 1 9 "updated")
      (sampleStore [sampleRow 1 7 "orig", sampleRow 2 9 "other"])).tables =
        sampleTables [sampleRow 2 9 "other"] :=
  have h := update_absent_or_foreign (sampleHandle 9)
    (sampleStore [sampleRow 1 7 "orig", sampleRow 2 9 "other"]) (sampleFlow 1 9 "updated") []
    (by decide) (by decide) rfl (by decide) (by decide) rfl rfl rfl rfl
  ⟨h.1, h.2.1, by decide⟩

/-- C7 (failing input): the flow 1 of tenant 7 is read back and saved unmodified.  On
a backend that counts matched rows `update` returns nil; on MySQL without
`clientFoundRows`, where the affected-row count is the number of rows changed, the
count of the no-op statement is 0 and `update` returns `sqlcon.ErrNoRows`, although
the row exists and belongs to the tenant.  The store is unchanged either way. -/
theorem update_unchanged_entity_rows_changed :
    (sampleFlow 1 7 "orig").fields.map (fun f => (f.db, f.value)) = sampleRow 1 7 "orig" ∧
    (update (sampleHandle 7) (sampleStore [sampleRow 1 7 "orig"])
      (sampleFlow 1 7 "orig") []).err = some none ∧
    (update (sampleHandle 7) (mysqlStore [sampleRow 1 7 "orig"])
      (sampleFlow 1 7 "orig") []).err = some (some Err.ErrNoRows) ∧
    (update (sampleHandle 7) (mysqlStore [sampleRow 1 7 "orig"])
      (sampleFlow 1 7 "orig") []).tablesOr [] = sampleTables [sampleRow 1 7 "orig"] := by
  decide

/-- The text of the statement: its SET clause is made of the assigned columns, its
WHERE clause is the identifier predicate and the tenant predicate. -/
theorem stmtOf_text (quote : String → String) (v : Entity) (cols : Columns) :
    (stmtOf quote v cols).text =
      "UPDATE " ++ quote v.TableName ++ " AS " ++ (NewModel v).Alias ++ " SET " ++
        setClause quote (stmtOf quote v cols).setCols ++ " WHERE " ++
        (NewModel v).WhereNamedID ++ " AND " ++ (NewModel v).Alias ++ ".nid = :nid" := by
  simp only [stmtOf, setClause, Columns.QuotedUpdateString, List.map_map]
  rfl

/-- C4 (amended): with no column names and a struct whose column fields carry plain
tags (a plain identifier as column name; `rw` absent, `r` or `w`) and name distinct
columns, the SET clause assigns exactly the fields that stand for a column and are
written by an update: those without a `select` tag that are tagged `rw:"w"` or have
no `rw` tag and are not the identifier column.  So an untagged `nid` column is
assigned like any other column, and the identifier column is assigned exactly when
its field is tagged `rw:"w"` and has no `select` tag. -/
theorem update_all_columns (quote : String → String) (v : Entity)
    (hr : ∀ f ∈ v.fields, f.isColumn = true → f.plainTags = true)
    (hnd : ((v.fields.filter Field.isColumn).map Field.dbTag).Nodup) :
    ∃ st, updateStmt quote v [] = some st ∧
      st.setCols =
        (v.fields.filter (fun f => f.isColumn && f.isAssigned v.IDField)).map Field.dbTag ∧
      st.text =
        "UPDATE " ++ quote v.TableName ++ " AS " ++ (NewModel v).Alias ++ " SET " ++
          setClause quote st.setCols ++ " WHERE " ++
          (NewModel v).WhereNamedID ++ " AND " ++ (NewModel v).Alias ++ ".nid = :nid" ∧
      (∀ f ∈ v.fields, f.dbTag = "nid" → f.rw = "" → f.select = "" → v.IDField ≠ "nid" →
        "nid" ∈ st.setCols) ∧
      (v.IDField ∈ st.setCols ↔
        ∃ f ∈ v.fields, f.isColumn = true ∧ f.dbTag = v.IDField ∧ f.rw = "w" ∧
          f.select = "") := by
  obtain ⟨cols, hc, hs⟩ := columns_of_struct v
    (fun f hf hcol => readAsWritten_of_plain f (hr f hf hcol)) hnd
  have hs2 : (stmtOf quote v cols).setCols =
      (v.fields.filter (fun f => f.isColumn && f.isAssigned v.IDField)).map Field.dbTag := hs
  refine ⟨stmtOf quote v cols, by simp [updateStmt, hc], hs2, stmtOf_text quote v cols, ?_, ?_⟩
  · intro f hf hdb hrw hsel hid
    rw [hs2]
    refine List.mem_map.mpr ⟨f, List.mem_filter.mpr ⟨hf, ?_⟩, hdb⟩
    have hid2 : ¬ "nid" = v.IDField := fun h => hid h.symm
    simp [Field.isColumn, Field.isAssigned, hdb, hrw, hsel, hid2]
  · rw [hs2]
    simp only [List.mem_map, List.mem_filter, Bool.and_eq_true]
    constructor
    · rintro ⟨f, ⟨hf, hcol, hass⟩, hdb⟩
      have hp := hr f hf hcol
      simp only [Field.plainTags, Bool.and_eq_true, Bool.or_eq_true, beq_iff_eq] at hp
      refine ⟨f, hf, hcol, hdb, ?_⟩
      simp only [Field.isAssigned, Bool.and_eq_true, beq_iff_eq] at hass
      obtain ⟨hsel, hw⟩ := hass
      refine ⟨?_, hsel⟩
      rcases hp.2 with (h | h) | h
      · simp [h, hdb] at hw
      · simp [h] at hw
      · exact h
    · rintro ⟨f, hf, hcol, hdb, hrw, hsel⟩
      exact ⟨f, ⟨hf, hcol, by simp [Field.isAssigned, hrw, hsel]⟩, hdb⟩

/-- Witness of C4 (amended): the login flow. -/
theorem update_all_columns_witness :
    ∃ st, updateStmt sampleQuote (sampleFlow 1 7 "u") [] = some st ∧
      st.setCols = ["nid", "request_url", "active"] :=
  have h := update_all_columns sampleQuote (sampleFlow 1 7 "u") (by decide) (by decide)
  h.elim (fun st hst => ⟨st, hst.1, hst.2.1⟩)

/-- Counterexample to C4: for the login flow and no column names, the SET clause
assigns the tenant id column `nid`. -/
theorem update_all_columns_assigns_nid :
    "nid" ∈ assignedColumns (sampleFlow 1 7 "u") [] ∧
    (updateStmt sampleQuote (sampleFlow 1 7 "u") []).map UpdateStmt.text =
      some "UPDATE \"selfservice_login_flows\" AS selfservice_login_flows SET \"active\" = :active, \"nid\" = :nid, \"request_url\" = :request_url WHERE selfservice_login_flows.id = :id AND selfservice_login_flows.nid = :nid" := by
  decide

theorem plainStatement_of_names (v : Entity) (names : List String) (hne : names ≠ [])
    (hv : ∀ n ∈ names, isPlainName n = true) (hent : v.plainNames = true) :
    plainStatement v names = true := by
  obtain ⟨cols, hc, _, hx⟩ := columns_of_names v names hne
    (fun n hn => isVerbatim_of_plain n (plain_chars (hv n hn)))
  simp only [Entity.plainNames, Bool.and_eq_true] at hent
  obtain ⟨⟨⟨h1, h2⟩, h3⟩, h4⟩ := hent
  have hall : (cols.Writeable.Cols.map Column.Name).all isPlainName = true := by
    rw [List.all_eq_true]
    intro x hxm
    exact hv x ((hx x).mp hxm).1
  simp only [plainStatement, hc, UpdateStmt.Safe, stmtOf, Bool.and_eq_true]
  exact ⟨⟨⟨⟨h1, h2⟩, h3⟩, h4⟩, hall⟩

/-- C5 (amended): for an entity whose table name and identifier column are plain and
a non-empty list of plain column names (letters, digits and underscores), `update`
takes the named-columns branch (chosen by the list being non-empty alone); the SET
clause assigns exactly the named columns other than the identifier column; the WHERE
clause is the identifier predicate and `<alias>.nid = :nid`; and the cells of every
column that is not named are the same after the call. -/
theorem update_named_columns (p : Persister) (be : Backend) (v : Entity)
    (columnNames : List String) (quote : String → String)
    (hne : columnNames ≠ []) (hv : ∀ n ∈ columnNames, isPlainName n = true)
    (hent : v.plainNames = true) :
    updateColumns v columnNames =
      (NewColumnsWithAlias v.TableName "" v.IDField).Add columnNames ∧
    (∃ st, updateStmt quote v columnNames = some st ∧
      (∀ x, x ∈ st.setCols ↔ (x ∈ columnNames ∧ x ≠ v.IDField)) ∧
      st.text =
        "UPDATE " ++ quote v.TableName ++ " AS " ++ (NewModel v).Alias ++ " SET " ++
          setClause quote st.setCols ++ " WHERE " ++
          (NewModel v).WhereNamedID ++ " AND " ++ (NewModel v).Alias ++ ".nid = :nid") ∧
    (∀ c, c ∉ columnNames →
      columnCells c ((update p be v columnNames).tablesOr be.tables) =
        columnCells c be.tables) := by
  have hverb : ∀ n ∈ columnNames, IsVerbatim n :=
    fun n hn => isVerbatim_of_plain n (plain_chars (hv n hn))
  obtain ⟨cols, hc, hadd, hx⟩ := columns_of_names v columnNames hne hverb
  refine ⟨by rw [hc, hadd], ⟨stmtOf quote v cols, by simp [updateStmt, hc], hx,
    stmtOf_text quote v cols⟩, ?_⟩
  intro c hcn
  have hplain := plainStatement_of_names v columnNames hne hv hent
  rcases update_tables_cases p be v columnNames hplain with
    h | ⟨q, cols2, bound, idv, nidv, _, hc2, hb, _, _, _, h⟩
  · rw [h]
  · rw [h]
    apply updateTables_columnCells
    left
    apply bindAll_keys v _ bound hb
    intro hmem
    have : assignedColumns v columnNames = cols.Writeable.Cols.map Column.Name := by
      simp [assignedColumns, hc]
    rw [this] at hmem
    exact hcn ((hx c).mp hmem).1

/-- Witness of C5 (amended): the login flow updated in `request_url` alone. -/
theorem update_named_columns_witness :
    (∃ st, updateStmt sampleQuote (sampleFlow 1 7 "updated") ["id", "request_url"] = some st ∧
      ∀ x, x ∈ st.setCols ↔ (x ∈ ["id", "request_url"] ∧ x ≠ "id")) ∧
    columnCells "active" ((update (sampleHandle 7) (sampleStore [sampleRow 1 7 "orig"])
      (sampleFlow 1 7 "updated") ["id", "request_url"]).tablesOr
        (sampleTables [sampleRow 1 7 "orig"])) =
      columnCells "active" (sampleTables [sampleRow 1 7 "orig"]) :=
  have h := update_named_columns (sampleHandle 7) (sampleStore [sampleRow 1 7 "orig"])
    (sampleFlow 1 7 "updated") ["id", "request_url"] sampleQuote (by decide) (by decide)
    (by decide)
  ⟨h.2.1.elim (fun st hst => ⟨st, hst.1, hst.2.1⟩), h.2.2 "active" (by decide)⟩

/-- Counterexample to C5: the names are `active` and `request_url,r`; `Add` reads the
second as the column `request_url`, read-only, so the SET clause assigns `active`
alone and the stored `request_url` stays as it was. -/
theorem update_named_readonly_column :
    assignedColumns (sampleFlow 1 7 "updated") ["active", "request_url,r"] = ["active"] ∧
    (updateStmt sampleQuote (sampleFlow 1 7 "updated") ["active", "request_url,r"]).map
        UpdateStmt.text =
      some "UPDATE \"selfservice_login_flows\" AS selfservice_login_flows SET \"active\" = :active WHERE selfservice_login_flows.id = :id AND selfservice_login_flows.nid = :nid" ∧
    (update (sampleHandle 7) (sampleStore [sampleRow 1 7 "orig"])
      (sampleFlow 1 7 "updated") ["active", "request_url,r"]).err = some none ∧
    (update (sampleHandle 7) (sampleStore [sampleRow 1 7 "orig"])
      (sampleFlow 1 7 "updated") ["active", "request_url,r"]).tablesOr [] =
        sampleTables [sampleRow 1 7 "orig"] := by
  decide

end Kratos
